import Mathlib

/-!
# Tic-Tac-Toe with a minimax AI: a shallow embedding of `src/main.cpp`

The C++ program keeps one mutable `Board` inside `Game`; `minimax` and
`find_best_move` place and unplace marks on that shared board.  The embedding
passes the board explicitly: every operation that mutates the board returns
the board it leaves behind.

* `grid[r][c]` with `int` indices is an `Option`: `none` stands for an access
  outside the 3x3 grid, which the C++ program leaves undefined.
* `minimax` is recursive; the embedding recurses on a fuel counter and returns
  `none` when the fuel runs out.
* `int` arithmetic is arithmetic on `Int` wrapped to 32 bits (`wrapInt`).
-/

namespace TicTacToe

/-- The `enum class Player` of the source. -/
inductive Player where
  | None
  | Human
  | Computer
  deriving DecidableEq, Repr

/-- The `struct Move` of the source: two `int` fields. -/
structure Move where
  row : Int
  col : Int
  deriving DecidableEq, Repr

/-- Three values in a row, indexed by `0, 1, 2`: a `std::vector` of size three. -/
structure Vec3 (α : Type) where
  x0 : α
  x1 : α
  x2 : α
  deriving DecidableEq, Repr

/-- The element at index `i`. -/
def Vec3.get {α : Type} (v : Vec3 α) (i : Fin 3) : α :=
  match i.val with
  | 0 => v.x0
  | 1 => v.x1
  | _ => v.x2

/-- The vector with the element at index `i` overwritten by `a`. -/
def Vec3.set {α : Type} (v : Vec3 α) (i : Fin 3) (a : α) : Vec3 α :=
  match i.val with
  | 0 => { v with x0 := a }
  | 1 => { v with x1 := a }
  | _ => { v with x2 := a }

/-- The `class Board` of the source: `grid` is a vector of three rows of three `Player`
cells each (the constructor assigns it that size and nothing resizes it). -/
structure Board where
  grid : Vec3 (Vec3 Player)
  deriving DecidableEq, Repr

/-- The cell `grid[r][c]` for indices inside the grid. -/
def Board.get (b : Board) (r c : Fin 3) : Player := (b.grid.get r).get c

/-- The board built by the constructor `Board()` and by `reset()`: every cell is `None`. -/
def Board.empty : Board :=
  ⟨⟨⟨Player.None, Player.None, Player.None⟩, ⟨Player.None, Player.None, Player.None⟩,
    ⟨Player.None, Player.None, Player.None⟩⟩⟩

/-- The method `Board::reset`: every row is filled with `None`. -/
def Board.reset (_b : Board) : Board := Board.empty

/-- The read `grid[r][c]` with `int` indices; `none` when an index is outside `0..2`. -/
def Board.cell (b : Board) (r c : Int) : Option Player :=
  if h : 0 ≤ r ∧ r < 3 ∧ 0 ≤ c ∧ c < 3 then
    some (b.get ⟨r.toNat, by omega⟩ ⟨c.toNat, by omega⟩)
  else none

/-- The board with cell `(r, c)` overwritten by `p`. -/
def Board.set (b : Board) (r c : Fin 3) (p : Player) : Board :=
  ⟨b.grid.set r ((b.grid.get r).set c p)⟩

/-- The write `grid[r][c] = p` with `int` indices; `none` when an index is outside `0..2`. -/
def Board.write (b : Board) (r c : Int) (p : Player) : Option Board :=
  if h : 0 ≤ r ∧ r < 3 ∧ 0 ≤ c ∧ c < 3 then
    some (b.set ⟨r.toNat, by omega⟩ ⟨c.toNat, by omega⟩ p)
  else none

/-- The method `Board::is_full`: scans the rows, and answers `false` at the first `None`
cell. -/
def Board.is_full (b : Board) : Bool :=
  (List.finRange 3).all fun r => (List.finRange 3).all fun c => decide (b.get r c ≠ Player.None)

/-- The method `Board::is_empty`: `grid[r][c] == Player::None`. -/
def Board.is_empty (b : Board) (r c : Int) : Option Bool :=
  (b.cell r c).map fun p => decide (p = Player.None)

/-- The method `Board::place`: the range check comes first, then the emptiness check, then
the write.
The result is the returned `bool` and the board left behind. -/
def Board.place (b : Board) (r c : Int) (p : Player) : Option (Bool × Board) :=
  if r < 0 ∨ r ≥ 3 ∨ c < 0 ∨ c ≥ 3 then some (false, b)
  else
    match b.is_empty r c with
    | none => none
    | some e =>
      if !e then some (false, b)
      else
        match b.write r c p with
        | none => none
        | some b' => some (true, b')

/-- The method `Board::unplace`: `grid[r][c] = Player::None`, with no check at all. -/
def Board.unplace (b : Board) (r c : Int) : Option Board :=
  b.write r c Player.None

/-- The test of one line in `Board::winner`: the first cell is not `None`, equals the
second, and the second equals the third. -/
def lineWins (x y z : Player) : Bool :=
  decide (x ≠ Player.None) && decide (x = y) && decide (y = z)

/-- The method `Board::winner`: the three rows, then the three columns, then the main
diagonal, then the anti-diagonal; the first complete line returns its first cell. -/
def Board.winner (b : Board) : Option Player :=
  match (List.finRange 3).find? (fun r => lineWins (b.get r 0) (b.get r 1) (b.get r 2)) with
  | some r => some (b.get r 0)
  | none =>
    match (List.finRange 3).find? (fun c => lineWins (b.get 0 c) (b.get 1 c) (b.get 2 c)) with
    | some c => some (b.get 0 c)
    | none =>
      if lineWins (b.get 0 0) (b.get 1 1) (b.get 2 2) then some (b.get 0 0)
      else if lineWins (b.get 0 2) (b.get 1 1) (b.get 2 0) then some (b.get 0 2)
      else none

/-- The smallest `int`: `std::numeric_limits<int>::min()`. -/
def INT_MIN : Int := -2147483648

/-- The greatest `int`: `std::numeric_limits<int>::max()`. -/
def INT_MAX : Int := 2147483647

/-- The value of an `int` expression: the mathematical result wrapped to 32 bits. -/
def wrapInt (x : Int) : Int := (x + 2147483648) % 4294967296 - 2147483648

/-- The values the loop variables `r` and `c` take: `0, 1, 2`. -/
def indices : List Int := [0, 1, 2]

/-- The method `Game::evaluate_board`: 10 for a computer win, -10 for a human win, else 0. -/
def evaluate_board (b : Board) : Int :=
  match b.winner with
  | some w =>
    if w = Player.Computer then 10
    else if w = Player.Human then -10
    else 0
  | none => 0

/-- One pass of the body of the inner `for` loop of `minimax`, at cell `(r, c)`:
`search` is the recursive call, `p` the mark placed and `better value best` the test
that replaces `best`.  The state is the pair of `best` and the board. -/
def minimaxCell (search : Board → Option (Int × Board)) (p : Player)
    (better : Int → Int → Bool) (r c : Int) (st : Int × Board) : Option (Int × Board) :=
  match st.2.is_empty r c with
  | none => none
  | some false => some st
  | some true =>
    match st.2.place r c p with
    | none => none
    | some (_, b1) =>
      match search b1 with
      | none => none
      | some (value, b2) =>
        match b2.unplace r c with
        | none => none
        | some b3 => some (if better value st.1 then value else st.1, b3)

/-- The two nested `for` loops of `minimax`: rows `0..2`, and columns `0..2` in each row. -/
def minimaxLoop (search : Board → Option (Int × Board)) (p : Player)
    (better : Int → Int → Bool) (st : Int × Board) : Option (Int × Board) :=
  indices.foldlM
    (fun st r => indices.foldlM (fun st c => minimaxCell search p better r c st) st) st

/-- The method `Game::minimax`, on the board `b`: the result is the returned score and the
board left behind.  `none` when the fuel is used up or a grid access is out of range. -/
def minimax : Nat → Board → Bool → Int → Option (Int × Board)
  | 0, _, _, _ => none
  | fuel + 1, b, is_maximizing, depth =>
    let score := evaluate_board b
    if score = 10 ∨ score = -10 then
      some (wrapInt (score - wrapInt (depth * (if score > 0 then 1 else -1))), b)
    else if b.is_full then
      some (0, b)
    else if is_maximizing then
      minimaxLoop (fun b1 => minimax fuel b1 false (wrapInt (depth + 1))) Player.Computer
        (fun value best => decide (value > best)) (INT_MIN, b)
    else
      minimaxLoop (fun b1 => minimax fuel b1 true (wrapInt (depth + 1))) Player.Human
        (fun value best => decide (value < best)) (INT_MAX, b)

/-- One pass of the body of the inner `for` loop of `find_best_move`, at cell `(r, c)`.
The state is `best_val`, `best_move` and the board. -/
def bestMoveCell (fuel : Nat) (r c : Int) (st : Int × Move × Board) :
    Option (Int × Move × Board) :=
  match st.2.2.is_empty r c with
  | none => none
  | some false => some st
  | some true =>
    match st.2.2.place r c Player.Computer with
    | none => none
    | some (_, b1) =>
      match minimax fuel b1 false 0 with
      | none => none
      | some (move_val, b2) =>
        match b2.unplace r c with
        | none => none
        | some b3 =>
          if move_val > st.1 then some (move_val, ⟨r, c⟩, b3) else some (st.1, st.2.1, b3)

/-- The method `Game::find_best_move`: the returned move and the board left behind. -/
def find_best_move (fuel : Nat) (b : Board) : Option (Move × Board) :=
  match indices.foldlM (fun st r => indices.foldlM (fun st c => bestMoveCell fuel r c st) st)
      (INT_MIN, (⟨-1, -1⟩ : Move), b) with
  | none => none
  | some (_, best_move, b') => some (best_move, b')

/-- The method `Game::computer_turn`: `find_best_move`, then `place` of the computer's mark
(the `bool` that `place` returns is dropped, as in the source). -/
def computer_turn (fuel : Nat) (b : Board) : Option Board :=
  match find_best_move fuel b with
  | none => none
  | some (best_move, b1) =>
    match b1.place best_move.row best_move.col Player.Computer with
    | none => none
    | some (_, b2) => some b2

/-- The pass of the loop of `Game::human_turn` that accepts the input `(r, c)`: the input
is in range and the cell is empty, and the human's mark is placed there.  `none` when the
input is rejected, which the source answers by asking again. -/
def human_turn (b : Board) (r c : Int) : Option Board :=
  if r < 0 ∨ r ≥ 3 ∨ c < 0 ∨ c ≥ 3 then none
  else
    match b.is_empty r c with
    | some true =>
      match b.place r c Player.Human with
      | some (_, b') => some b'
      | none => none
    | _ => none

/-- The states `Game::play_one_round` goes through, as pairs of the board and `current` at
the top of the `while` loop: the round starts on the empty board with the human to move;
while there is no winner and the board is not full, the player whose turn it is moves. -/
inductive Reached : Board → Player → Prop
  | start : Reached Board.empty Player.Human
  | human {b b' : Board} (r c : Int) :
      Reached b Player.Human → b.winner = none → b.is_full = false →
      human_turn b r c = some b' → Reached b' Player.Computer
  | computer {b b' : Board} (fuel : Nat) :
      Reached b Player.Computer → b.winner = none → b.is_full = false →
      computer_turn fuel b = some b' → Reached b' Player.Human

/-! ## Definitions used to state the properties -/

/-- The nine cells in the order the nested loops visit them. -/
def allCells : List (Fin 3 × Fin 3) :=
  [(0, 0), (0, 1), (0, 2), (1, 0), (1, 1), (1, 2), (2, 0), (2, 1), (2, 2)]

/-- The number of `None` cells of a board. -/
def emptyCount (b : Board) : Nat :=
  allCells.countP fun rc => decide (b.get rc.1 rc.2 = Player.None)

/-- The eight lines, in the order `winner` checks them. -/
def lines : List ((Fin 3 × Fin 3) × (Fin 3 × Fin 3) × (Fin 3 × Fin 3)) :=
  [((0, 0), (0, 1), (0, 2)), ((1, 0), (1, 1), (1, 2)), ((2, 0), (2, 1), (2, 2)),
   ((0, 0), (1, 0), (2, 0)), ((0, 1), (1, 1), (2, 1)), ((0, 2), (1, 2), (2, 2)),
   ((0, 0), (1, 1), (2, 2)), ((0, 2), (1, 1), (2, 0))]

/-- Three marks are equal and not `None`. -/
def threeEqual (x y z : Player) : Bool :=
  decide (x ≠ Player.None ∧ x = y ∧ x = z)

/-- A line is complete on a board when its three cells hold equal marks other than `None`. -/
def lineComplete (b : Board) (l : (Fin 3 × Fin 3) × (Fin 3 × Fin 3) × (Fin 3 × Fin 3)) :
    Bool :=
  threeEqual (b.get l.1.1 l.1.2) (b.get l.2.1.1 l.2.1.2) (b.get l.2.2.1 l.2.2.2)

/-- The winner as the specification words it: the mark on the first complete line. -/
def firstCompleteLine (b : Board) : Option Player :=
  (lines.find? (lineComplete b)).map fun l => b.get l.1.1 l.1.2

/-- The value `best` holds after one pass of the loop body of `minimax` at cell `rc`, when
the recursive call on the board with the mark placed at a cell returns `val` of that cell. -/
def pickStep (b : Board) (better : Int → Int → Bool) (val : Fin 3 × Fin 3 → Int)
    (best : Int) (rc : Fin 3 × Fin 3) : Int :=
  if b.get rc.1 rc.2 = Player.None then
    if better (val rc) best then val rc else best
  else best

/-- The score `minimax` returns, as a function of the board alone: the recursive calls are
replaced by their values and the board is never written. -/
def score : Nat → Board → Bool → Int → Int
  | 0, _, _, _ => 0
  | fuel + 1, b, is_maximizing, depth =>
    if evaluate_board b = 10 ∨ evaluate_board b = -10 then
      wrapInt (evaluate_board b - wrapInt (depth * (if evaluate_board b > 0 then 1 else -1)))
    else if b.is_full then 0
    else if is_maximizing then
      allCells.foldl
        (pickStep b (fun value best => decide (value > best))
          (fun rc => score fuel (b.set rc.1 rc.2 Player.Computer) false (wrapInt (depth + 1))))
        INT_MIN
    else
      allCells.foldl
        (pickStep b (fun value best => decide (value < best))
          (fun rc => score fuel (b.set rc.1 rc.2 Player.Human) true (wrapInt (depth + 1))))
        INT_MAX

/-- The board that holds the listed marks on the listed cells and `None` elsewhere. -/
def boardOf (l : List (Fin 3 × Fin 3 × Player)) : Board :=
  l.foldl (fun b x => b.set x.1 x.2.1 x.2.2) Board.empty

/-- The move that names the cell `rc`. -/
def moveOf (rc : Fin 3 × Fin 3) : Move := ⟨(rc.1.val : Int), (rc.2.val : Int)⟩

/-- The pair of `best_val` and `best_move` after one pass of the loop body of
`find_best_move` at cell `rc`, when `minimax` on the board with the computer's mark placed
at a cell returns `val` of that cell. -/
def bestStep (b : Board) (val : Fin 3 × Fin 3 → Int) (st : Int × Move)
    (rc : Fin 3 × Fin 3) : Int × Move :=
  if b.get rc.1 rc.2 = Player.None then
    if val rc > st.1 then (val rc, moveOf rc) else st
  else st

/-- The value of the cell `rc` for `find_best_move` on the board `b`: what
`minimax(false, 0)` returns on `b` with the computer's mark placed at `rc`. -/
def moveValue (fuel : Nat) (b : Board) (rc : Fin 3 × Fin 3) : Option Int :=
  (minimax fuel (b.set rc.1 rc.2 Player.Computer) false 0).map Prod.fst

/-- Row-major scan order on cells: `rc` is visited strictly before `rc'`. -/
def scanBefore (rc rc' : Fin 3 × Fin 3) : Prop :=
  rc.1 < rc'.1 ∨ (rc.1 = rc'.1 ∧ rc.2 < rc'.2)

instance (rc rc' : Fin 3 × Fin 3) : Decidable (scanBefore rc rc') := by
  unfold scanBefore
  exact inferInstance

/-- The cell `rc` lies on the line `l`. -/
def lineHas (l : (Fin 3 × Fin 3) × (Fin 3 × Fin 3) × (Fin 3 × Fin 3))
    (rc : Fin 3 × Fin 3) : Bool :=
  decide (l.1 = rc ∨ l.2.1 = rc ∨ l.2.2 = rc)

/-- Placing the mark `p` on the cell `rc` of the board `b` would complete a line of three
`p` marks: `rc` is `None` on `b`, and some line through `rc` holds `p` on its other cells. -/
def completesLine (b : Board) (rc : Fin 3 × Fin 3) (p : Player) : Bool :=
  decide (b.get rc.1 rc.2 = Player.None) &&
    lines.any fun l =>
      lineHas l rc &&
        decide ((l.1 = rc ∨ b.get l.1.1 l.1.2 = p) ∧ (l.2.1 = rc ∨ b.get l.2.1.1 l.2.1.2 = p) ∧
          (l.2.2 = rc ∨ b.get l.2.2.1 l.2.2.2 = p))

/-- The board of the block scenario: human marks at `(1,0)` and `(1,1)`, nothing else. -/
def blockBoard : Board :=
  boardOf [(1, 0, Player.Human), (1, 1, Player.Human)]

/-- The board of the forced-win scenario: computer marks at `(0,0)` and `(0,1)`, and one
human mark at the cell `rc`. -/
def winBoard (rc : Fin 3 × Fin 3) : Board :=
  boardOf [(0, 0, Player.Computer), (0, 1, Player.Computer), (rc.1, rc.2, Player.Human)]

/-- A board won by the computer on the main diagonal while cells are still empty. -/
def diagonalBoard : Board :=
  boardOf [(0, 0, Player.Computer), (0, 1, Player.Human), (1, 1, Player.Computer),
    (0, 2, Player.Human), (2, 2, Player.Computer), (1, 0, Player.Human)]

/-- A board with two complete lines, which no game reaches: row 0 holds three computer
marks and row 1 three human marks. -/
def twoRowsBoard : Board :=
  boardOf [(0, 0, Player.Computer), (0, 1, Player.Computer), (0, 2, Player.Computer),
    (1, 0, Player.Human), (1, 1, Player.Human), (1, 2, Player.Human)]

/-- A board late in a game, the computer to move: the cells `(1,2)` and `(2,0)` are empty,
there is no winner, and the human threatens the anti-diagonal at `(2,0)`. -/
def lateBoard : Board :=
  boardOf [(0, 0, Player.Human), (0, 1, Player.Computer), (0, 2, Player.Human),
    (1, 0, Player.Computer), (1, 1, Player.Human), (2, 1, Player.Human),
    (2, 2, Player.Computer)]

/-- An order in which to try the computer's replies: centre, corners, edges. -/
def priority : List (Fin 3 × Fin 3) :=
  [(1, 1), (0, 0), (0, 2), (2, 0), (2, 2), (0, 1), (1, 0), (1, 2), (2, 1)]

/-- The computer does not lose from the board `b` with best play of both sides, computed
without scores: a board won by the computer, or full without a winner, is fine and a board
won by the human is not; with the computer to move some empty cell must lead to a fine
board, with the human to move every empty cell must. -/
def holdsDraw : Nat → Board → Bool → Bool
  | 0, _, _ => false
  | fuel + 1, b, computerToMove =>
    match b.winner with
    | some p => decide (p = Player.Computer)
    | none =>
      if b.is_full then true
      else if computerToMove then
        priority.any fun rc =>
          decide (b.get rc.1 rc.2 = Player.None) &&
            holdsDraw fuel (b.set rc.1 rc.2 Player.Computer) false
      else
        allCells.all fun rc =>
          decide (b.get rc.1 rc.2 ≠ Player.None) ||
            holdsDraw fuel (b.set rc.1 rc.2 Player.Human) true

/-- The mark is `None`. -/
def Player.isNone : Player → Bool
  | Player.None => true
  | _ => false

/-- The mark is the computer's. -/
def Player.isComputer : Player → Bool
  | Player.Computer => true
  | _ => false

/-- Three marks are equal and not `None`, by cases. -/
def sameMark : Player → Player → Player → Bool
  | Player.Human, Player.Human, Player.Human => true
  | Player.Computer, Player.Computer, Player.Computer => true
  | _, _, _ => false

/-- The function `holdsDraw` on the nine marks of a board, written out cell by cell. -/
def drawCheck : Nat → Bool → Player → Player → Player → Player → Player → Player →
    Player → Player → Player → Bool
  | 0, _, _, _, _, _, _, _, _, _, _ => false
  | fuel + 1, computerToMove, a00, a01, a02, a10, a11, a12, a20, a21, a22 =>
    if sameMark a00 a01 a02 then a00.isComputer
    else if sameMark a10 a11 a12 then a10.isComputer
    else if sameMark a20 a21 a22 then a20.isComputer
    else if sameMark a00 a10 a20 then a00.isComputer
    else if sameMark a01 a11 a21 then a01.isComputer
    else if sameMark a02 a12 a22 then a02.isComputer
    else if sameMark a00 a11 a22 then a00.isComputer
    else if sameMark a02 a11 a20 then a02.isComputer
    else if a00.isNone || a01.isNone || a02.isNone || a10.isNone || a11.isNone ||
        a12.isNone || a20.isNone || a21.isNone || a22.isNone then
      if computerToMove then
        (a11.isNone && drawCheck fuel false a00 a01 a02 a10 Player.Computer a12 a20 a21 a22) ||
        (a00.isNone && drawCheck fuel false Player.Computer a01 a02 a10 a11 a12 a20 a21 a22) ||
        (a02.isNone && drawCheck fuel false a00 a01 Player.Computer a10 a11 a12 a20 a21 a22) ||
        (a20.isNone && drawCheck fuel false a00 a01 a02 a10 a11 a12 Player.Computer a21 a22) ||
        (a22.isNone && drawCheck fuel false a00 a01 a02 a10 a11 a12 a20 a21 Player.Computer) ||
        (a01.isNone && drawCheck fuel false a00 Player.Computer a02 a10 a11 a12 a20 a21 a22) ||
        (a10.isNone && drawCheck fuel false a00 a01 a02 Player.Computer a11 a12 a20 a21 a22) ||
        (a12.isNone && drawCheck fuel false a00 a01 a02 a10 a11 Player.Computer a20 a21 a22) ||
        (a21.isNone && drawCheck fuel false a00 a01 a02 a10 a11 a12 a20 Player.Computer a22)
      else
        (!a00.isNone || drawCheck fuel true Player.Human a01 a02 a10 a11 a12 a20 a21 a22) &&
        (!a01.isNone || drawCheck fuel true a00 Player.Human a02 a10 a11 a12 a20 a21 a22) &&
        (!a02.isNone || drawCheck fuel true a00 a01 Player.Human a10 a11 a12 a20 a21 a22) &&
        (!a10.isNone || drawCheck fuel true a00 a01 a02 Player.Human a11 a12 a20 a21 a22) &&
        (!a11.isNone || drawCheck fuel true a00 a01 a02 a10 Player.Human a12 a20 a21 a22) &&
        (!a12.isNone || drawCheck fuel true a00 a01 a02 a10 a11 Player.Human a20 a21 a22) &&
        (!a20.isNone || drawCheck fuel true a00 a01 a02 a10 a11 a12 Player.Human a21 a22) &&
        (!a21.isNone || drawCheck fuel true a00 a01 a02 a10 a11 a12 a20 Player.Human a22) &&
        (!a22.isNone || drawCheck fuel true a00 a01 a02 a10 a11 a12 a20 a21 Player.Human)
    else true

/-- The marks of a sample round, in the order they are placed: the human opens in a
corner, the computer takes the centre, blocks row 0, and wins on the anti-diagonal. -/
def sampleRound : List (Fin 3 × Fin 3 × Player) :=
  [(0, 0, Player.Human), (1, 1, Player.Computer), (0, 1, Player.Human),
    (0, 2, Player.Computer), (1, 0, Player.Human), (2, 0, Player.Computer)]

/-- The board of the sample round after its first `k` marks. -/
def sampleBoard (k : Nat) : Board := boardOf (sampleRound.take k)

/-- A full board without a complete line: a round played to a draw. -/
def drawBoard : Board :=
  boardOf [(0, 0, Player.Human), (0, 1, Player.Computer), (0, 2, Player.Human),
    (1, 0, Player.Human), (1, 1, Player.Computer), (1, 2, Player.Computer),
    (2, 0, Player.Computer), (2, 1, Player.Human), (2, 2, Player.Human)]

/-- A full board on which the human's last mark, at `(0,0)`, completed row 0 and column 0
at once. -/
def doubleLineBoard : Board :=
  boardOf [(0, 1, Player.Human), (1, 1, Player.Computer), (0, 2, Player.Human),
    (1, 2, Player.Computer), (1, 0, Player.Human), (2, 1, Player.Computer),
    (2, 0, Player.Human), (2, 2, Player.Computer), (0, 0, Player.Human)]

/-- One for `true`, zero for `false`. -/
def oneIf : Bool → Nat
  | true => 1
  | false => 0

/-- The mark is the human's. -/
def Player.isHuman : Player → Bool
  | Player.Human => true
  | _ => false

/-- The number of complete lines among nine marks, given row by row. -/
def lineCount9 (a00 a01 a02 a10 a11 a12 a20 a21 a22 : Player) : Nat :=
  oneIf (sameMark a00 a01 a02) + (oneIf (sameMark a10 a11 a12) + (oneIf (sameMark a20 a21 a22) +
    (oneIf (sameMark a00 a10 a20) + (oneIf (sameMark a01 a11 a21) +
      (oneIf (sameMark a02 a12 a22) + (oneIf (sameMark a00 a11 a22) +
        (oneIf (sameMark a02 a11 a20) + 0)))))))

/-- Some line among nine marks, given row by row, holds three marks for which `f` is
true: with `f` the test for a player's mark, the player holds a complete line. -/
def hasLine9 (f : Player → Bool) (a00 a01 a02 a10 a11 a12 a20 a21 a22 : Player) : Bool :=
  (f a00 && f a01 && f a02) || (f a10 && f a11 && f a12) || (f a20 && f a21 && f a22) ||
  (f a00 && f a10 && f a20) || (f a01 && f a11 && f a21) || (f a02 && f a12 && f a22) ||
  (f a00 && f a11 && f a22) || (f a02 && f a11 && f a20)

/-- The number of marks, among nine, for which `f` is true. -/
def count9 (f : Player → Bool) (a00 a01 a02 a10 a11 a12 a20 a21 a22 : Player) : Nat :=
  oneIf (f a00) + (oneIf (f a01) + (oneIf (f a02) + (oneIf (f a10) + (oneIf (f a11) +
    (oneIf (f a12) + (oneIf (f a20) + (oneIf (f a21) + (oneIf (f a22) + 0))))))))

/-- The bound on complete lines, on nine marks: when the human has as many marks as the
computer or one more, and not both hold a complete line, at most two lines are complete,
and two only on a full board, for the human. -/
def lineBound9 (a00 a01 a02 a10 a11 a12 a20 a21 a22 : Player) : Bool :=
  let nH := count9 Player.isHuman a00 a01 a02 a10 a11 a12 a20 a21 a22
  let nC := count9 Player.isComputer a00 a01 a02 a10 a11 a12 a20 a21 a22
  let k := lineCount9 a00 a01 a02 a10 a11 a12 a20 a21 a22
  !(Nat.beq nH nC || Nat.beq nH (nC + 1)) ||
  (hasLine9 Player.isHuman a00 a01 a02 a10 a11 a12 a20 a21 a22 &&
    hasLine9 Player.isComputer a00 a01 a02 a10 a11 a12 a20 a21 a22) ||
  (Nat.ble k 2 &&
    (Nat.ble k 1 ||
      (Nat.beq (count9 Player.isNone a00 a01 a02 a10 a11 a12 a20 a21 a22) 0 &&
        hasLine9 Player.isHuman a00 a01 a02 a10 a11 a12 a20 a21 a22)))

/-- The test `f` holds for each of the three marks. -/
def forMarks (f : Player → Bool) : Bool :=
  f Player.None && f Player.Human && f Player.Computer

/-- The number of cells of the board that hold the mark `p`. -/
def countMark (b : Board) (p : Player) : Nat :=
  allCells.countP fun rc => decide (b.get rc.1 rc.2 = p)

/-- The player `p` holds a complete line on the board: some line has `p` on its three
cells. -/
def holdsLine (b : Board) (p : Player) : Bool :=
  lines.any fun l =>
    decide (b.get l.1.1 l.1.2 = p ∧ b.get l.2.1.1 l.2.1.2 = p ∧ b.get l.2.2.1 l.2.2.2 = p)

/-- The human and the computer do not both hold a complete line on the board. -/
def oneSided (b : Board) : Bool :=
  !(holdsLine b Player.Human && holdsLine b Player.Computer)

/-- The boards reached from the empty board by alternating placements, the human first,
none of them on a board that has a winner, each with the player to move next. -/
inductive Alternating : Board → Player → Prop
  | start : Alternating Board.empty Player.Human
  | human {b : Board} (rc : Fin 3 × Fin 3) :
      Alternating b Player.Human → b.winner = none → b.get rc.1 rc.2 = Player.None →
      Alternating (b.set rc.1 rc.2 Player.Human) Player.Computer
  | computer {b : Board} (rc : Fin 3 × Fin 3) :
      Alternating b Player.Computer → b.winner = none → b.get rc.1 rc.2 = Player.None →
      Alternating (b.set rc.1 rc.2 Player.Computer) Player.Human

/-- The function `minimax` with a watch on the boards it runs on: the same as `minimax`,
except that a call on a board for which `ok` is false gives no result.  Where it returns
what `minimax` returns, `ok` is true of every board the search visits. -/
def minimaxWatched (ok : Board → Bool) : Nat → Board → Bool → Int → Option (Int × Board)
  | 0, _, _, _ => none
  | fuel + 1, b, is_maximizing, depth =>
    if ok b = false then none
    else
      let score := evaluate_board b
      if score = 10 ∨ score = -10 then
        some (wrapInt (score - wrapInt (depth * (if score > 0 then 1 else -1))), b)
      else if b.is_full then
        some (0, b)
      else if is_maximizing then
        minimaxLoop (fun b1 => minimaxWatched ok fuel b1 false (wrapInt (depth + 1)))
          Player.Computer (fun value best => decide (value > best)) (INT_MIN, b)
      else
        minimaxLoop (fun b1 => minimaxWatched ok fuel b1 true (wrapInt (depth + 1)))
          Player.Human (fun value best => decide (value < best)) (INT_MAX, b)

/-- The marks of a round in which the human's fifth mark, at `(0,0)`, completes row 0 and
column 0 at once, in the order they are placed. -/
def doubleLineRound : List (Fin 3 × Fin 3 × Player) :=
  [(0, 1, Player.Human), (1, 1, Player.Computer), (0, 2, Player.Human),
    (1, 2, Player.Computer), (1, 0, Player.Human), (2, 1, Player.Computer),
    (2, 0, Player.Human), (2, 2, Player.Computer), (0, 0, Player.Human)]

theorem Vec3.get_set_vec {α : Type} (v : Vec3 α) (i j : Fin 3) (a : α) :
    (v.set i a).get j = if j = i then a else v.get j := by
  fin_cases i <;> fin_cases j <;> rfl

theorem Vec3.ext_vec {α : Type} {v w : Vec3 α} (h : ∀ i, v.get i = w.get i) : v = w := by
  cases v; cases w
  have h0 := h 0
  have h1 := h 1
  have h2 := h 2
  simp only [Vec3.get] at h0 h1 h2
  simp_all

theorem Board.get_set (b : Board) (r c r' c' : Fin 3) (p : Player) :
    (b.set r c p).get r' c' = if r' = r ∧ c' = c then p else b.get r' c' := by
  unfold Board.get Board.set
  simp only [Vec3.get_set_vec]
  by_cases hr : r' = r
  · subst hr; by_cases hc : c' = c <;> simp [hc, Vec3.get_set_vec]
  · simp [hr]

theorem Board.ext_get {b b' : Board} (h : ∀ r c, b.get r c = b'.get r c) : b = b' := by
  cases b; cases b'
  congr 1
  exact Vec3.ext_vec fun r => Vec3.ext_vec fun c => h r c

theorem Board.set_set_none (b : Board) (r c : Fin 3) (p : Player) (h : b.get r c = Player.None) :
    (b.set r c p).set r c Player.None = b := by
  apply Board.ext_get
  intro r' c'
  simp only [Board.get_set]
  by_cases hx : r' = r ∧ c' = c
  · obtain ⟨rfl, rfl⟩ := hx; simp [h]
  · simp [hx]

theorem Board.cell_coe (b : Board) (r c : Fin 3) :
    b.cell (r.val : Int) (c.val : Int) = some (b.get r c) := by
  have hr := r.isLt
  have hc := c.isLt
  unfold Board.cell
  rw [dif_pos (by omega)]
  simp

theorem Board.write_coe (b : Board) (r c : Fin 3) (p : Player) :
    b.write (r.val : Int) (c.val : Int) p = some (b.set r c p) := by
  have hr := r.isLt
  have hc := c.isLt
  unfold Board.write
  rw [dif_pos (by omega)]
  simp

theorem Board.is_empty_coe (b : Board) (r c : Fin 3) :
    b.is_empty (r.val : Int) (c.val : Int) = some (decide (b.get r c = Player.None)) := by
  simp [Board.is_empty, Board.cell_coe]

theorem Board.place_coe (b : Board) (r c : Fin 3) (p : Player) :
    b.place (r.val : Int) (c.val : Int) p =
      if b.get r c = Player.None then some (true, b.set r c p) else some (false, b) := by
  have hr := r.isLt
  have hc := c.isLt
  unfold Board.place
  rw [if_neg (by omega), Board.is_empty_coe, Board.write_coe]
  by_cases h : b.get r c = Player.None <;> simp [h]

theorem Board.unplace_coe (b : Board) (r c : Fin 3) :
    b.unplace (r.val : Int) (c.val : Int) = some (b.set r c Player.None) :=
  Board.write_coe b r c Player.None

/-! ## `Board::winner` -/

theorem finRange_three : List.finRange 3 = [0, 1, 2] := rfl

theorem lineWins_eq_threeEqual (x y z : Player) : lineWins x y z = threeEqual x y z := by
  cases x <;> cases y <;> cases z <;> rfl

theorem winner_unfold (b : Board) :
    b.winner =
      if threeEqual (b.get 0 0) (b.get 0 1) (b.get 0 2) then some (b.get 0 0)
      else if threeEqual (b.get 1 0) (b.get 1 1) (b.get 1 2) then some (b.get 1 0)
      else if threeEqual (b.get 2 0) (b.get 2 1) (b.get 2 2) then some (b.get 2 0)
      else if threeEqual (b.get 0 0) (b.get 1 0) (b.get 2 0) then some (b.get 0 0)
      else if threeEqual (b.get 0 1) (b.get 1 1) (b.get 2 1) then some (b.get 0 1)
      else if threeEqual (b.get 0 2) (b.get 1 2) (b.get 2 2) then some (b.get 0 2)
      else if threeEqual (b.get 0 0) (b.get 1 1) (b.get 2 2) then some (b.get 0 0)
      else if threeEqual (b.get 0 2) (b.get 1 1) (b.get 2 0) then some (b.get 0 2)
      else none := by
  unfold Board.winner
  rw [finRange_three]
  simp only [List.find?_cons, List.find?_nil, lineWins_eq_threeEqual]
  cases threeEqual (b.get 0 0) (b.get 0 1) (b.get 0 2) <;>
  cases threeEqual (b.get 1 0) (b.get 1 1) (b.get 1 2) <;>
  cases threeEqual (b.get 2 0) (b.get 2 1) (b.get 2 2) <;>
  cases threeEqual (b.get 0 0) (b.get 1 0) (b.get 2 0) <;>
  cases threeEqual (b.get 0 1) (b.get 1 1) (b.get 2 1) <;>
  cases threeEqual (b.get 0 2) (b.get 1 2) (b.get 2 2) <;> rfl

theorem firstCompleteLine_unfold (b : Board) :
    firstCompleteLine b =
      if threeEqual (b.get 0 0) (b.get 0 1) (b.get 0 2) then some (b.get 0 0)
      else if threeEqual (b.get 1 0) (b.get 1 1) (b.get 1 2) then some (b.get 1 0)
      else if threeEqual (b.get 2 0) (b.get 2 1) (b.get 2 2) then some (b.get 2 0)
      else if threeEqual (b.get 0 0) (b.get 1 0) (b.get 2 0) then some (b.get 0 0)
      else if threeEqual (b.get 0 1) (b.get 1 1) (b.get 2 1) then some (b.get 0 1)
      else if threeEqual (b.get 0 2) (b.get 1 2) (b.get 2 2) then some (b.get 0 2)
      else if threeEqual (b.get 0 0) (b.get 1 1) (b.get 2 2) then some (b.get 0 0)
      else if threeEqual (b.get 0 2) (b.get 1 1) (b.get 2 0) then some (b.get 0 2)
      else none := by
  unfold firstCompleteLine lines
  simp only [List.find?_cons, List.find?_nil, lineComplete]
  cases threeEqual (b.get 0 0) (b.get 0 1) (b.get 0 2) <;>
  cases threeEqual (b.get 1 0) (b.get 1 1) (b.get 1 2) <;>
  cases threeEqual (b.get 2 0) (b.get 2 1) (b.get 2 2) <;>
  cases threeEqual (b.get 0 0) (b.get 1 0) (b.get 2 0) <;>
  cases threeEqual (b.get 0 1) (b.get 1 1) (b.get 2 1) <;>
  cases threeEqual (b.get 0 2) (b.get 1 2) (b.get 2 2) <;>
  cases threeEqual (b.get 0 0) (b.get 1 1) (b.get 2 2) <;>
  cases threeEqual (b.get 0 2) (b.get 1 1) (b.get 2 0) <;> rfl

theorem winner_eq_firstCompleteLine (b : Board) : b.winner = firstCompleteLine b := by
  rw [winner_unfold, firstCompleteLine_unfold]

theorem winner_eq_none_iff (b : Board) :
    b.winner = none ↔ ∀ l ∈ lines, lineComplete b l = false := by
  rw [winner_eq_firstCompleteLine, firstCompleteLine, Option.map_eq_none', List.find?_eq_none]
  constructor
  · intro h l hl
    simpa using h l hl
  · intro h l hl
    simp [h l hl]

theorem winner_some_line (b : Board) (p : Player) (hp : b.winner = some p) :
    p ≠ Player.None ∧
      ∃ l ∈ lines, b.get l.1.1 l.1.2 = p ∧ b.get l.2.1.1 l.2.1.2 = p ∧
        b.get l.2.2.1 l.2.2.2 = p := by
  rw [winner_eq_firstCompleteLine, firstCompleteLine, Option.map_eq_some'] at hp
  obtain ⟨l, hfind, hl⟩ := hp
  have hmem : l ∈ lines := List.mem_of_find?_eq_some hfind
  have hc : lineComplete b l = true := List.find?_some hfind
  simp only [lineComplete, threeEqual, decide_eq_true_eq] at hc
  refine ⟨hl ▸ hc.1, l, hmem, hl, ?_, ?_⟩
  · rw [← hc.2.1, hl]
  · rw [← hc.2.2, hl]

/-- C9: `winner()` returns no winner exactly when none of the eight lines is complete;
otherwise it returns the mark of the first complete line in the order row 0, row 1, row 2,
column 0, column 1, column 2, main diagonal, anti-diagonal; the mark it returns is never
`None` and fills a complete line. -/
theorem winner_first_complete_line (b : Board) :
    (b.winner = none ↔ ∀ l ∈ lines, lineComplete b l = false) ∧
    b.winner = (lines.find? (lineComplete b)).map (fun l => b.get l.1.1 l.1.2) ∧
    ∀ p, b.winner = some p →
      p ≠ Player.None ∧
      ∃ l ∈ lines, b.get l.1.1 l.1.2 = p ∧ b.get l.2.1.1 l.2.1.2 = p ∧ b.get l.2.2.1 l.2.2.2 = p :=
  ⟨winner_eq_none_iff b, winner_eq_firstCompleteLine b, winner_some_line b⟩

/-! ## `Board::place` -/

/-- C10: `place(r, c, p)` with `r` or `c` outside `0..2` returns `false` and leaves the
board as it was, without reading the grid (a read of the grid there has no value);
with `(r, c)` in range and not `None` it returns `false` and leaves the board as it was;
with `(r, c)` in range and `None` it returns `true`, cell `(r, c)` becomes `p` and every
other cell keeps its mark. -/
theorem place_spec (b : Board) (r c : Int) (p : Player) :
    ((r < 0 ∨ 2 < r ∨ c < 0 ∨ 2 < c) →
      b.cell r c = none ∧ b.place r c p = some (false, b)) ∧
    ((0 ≤ r ∧ r ≤ 2 ∧ 0 ≤ c ∧ c ≤ 2) → b.cell r c ≠ some Player.None →
      b.place r c p = some (false, b)) ∧
    ((0 ≤ r ∧ r ≤ 2 ∧ 0 ≤ c ∧ c ≤ 2) → b.cell r c = some Player.None →
      ∃ b', b.place r c p = some (true, b') ∧ b'.cell r c = some p ∧
        ∀ r' c' : Int, (r' ≠ r ∨ c' ≠ c) → b'.cell r' c' = b.cell r' c') := by
  refine ⟨?_, ?_, ?_⟩
  · intro h
    constructor
    · unfold Board.cell
      rw [dif_neg (by omega)]
    · unfold Board.place
      rw [if_pos (by omega)]
  · intro h hne
    obtain ⟨r', rfl⟩ : ∃ r' : Fin 3, r = (r'.val : Int) := ⟨⟨r.toNat, by omega⟩, by simp; omega⟩
    obtain ⟨c', rfl⟩ : ∃ c' : Fin 3, c = (c'.val : Int) := ⟨⟨c.toNat, by omega⟩, by simp; omega⟩
    rw [Board.cell_coe] at hne
    rw [Board.place_coe, if_neg (by simpa using hne)]
  · intro h he
    obtain ⟨r', rfl⟩ : ∃ r' : Fin 3, r = (r'.val : Int) := ⟨⟨r.toNat, by omega⟩, by simp; omega⟩
    obtain ⟨c', rfl⟩ : ∃ c' : Fin 3, c = (c'.val : Int) := ⟨⟨c.toNat, by omega⟩, by simp; omega⟩
    rw [Board.cell_coe] at he
    refine ⟨b.set r' c' p, ?_, ?_, ?_⟩
    · rw [Board.place_coe, if_pos (by simpa using he)]
    · rw [Board.cell_coe, Board.get_set]; simp
    · intro r2 c2 hne
      unfold Board.cell
      by_cases hin : 0 ≤ r2 ∧ r2 < 3 ∧ 0 ≤ c2 ∧ c2 < 3
      · rw [dif_pos hin, dif_pos hin, Board.get_set, if_neg]
        rintro ⟨h1, h2⟩
        have h1' := congrArg (fun x : Fin 3 => (x.val : Int)) h1
        have h2' := congrArg (fun x : Fin 3 => (x.val : Int)) h2
        simp at h1' h2'
        omega
      · rw [dif_neg hin, dif_neg hin]

/-! ## The loops of `minimax` -/

theorem minimaxLoop_eq_foldlM (search : Board → Option (Int × Board)) (p : Player)
    (better : Int → Int → Bool) (st : Int × Board) :
    minimaxLoop search p better st =
      allCells.foldlM
        (fun st rc => minimaxCell search p better (rc.1.val : Int) (rc.2.val : Int) st) st := by
  simp [minimaxLoop, indices, allCells, List.foldlM, Option.bind_assoc]

theorem minimaxCell_frame (search : Board → Option (Int × Board)) (p : Player)
    (better : Int → Int → Bool) (r c : Fin 3) (best : Int) (b : Board) (st : Int × Board)
    (hs : ∀ b1 v b2, search b1 = some (v, b2) → b2 = b1)
    (h : minimaxCell search p better (r.val : Int) (c.val : Int) (best, b) = some st) :
    st.2 = b := by
  unfold minimaxCell at h
  simp only [Board.is_empty_coe, Board.place_coe, Board.unplace_coe] at h
  by_cases he : b.get r c = Player.None
  · simp only [he, decide_True, if_true] at h
    cases hsr : search (b.set r c p) with
    | none => simp [hsr] at h
    | some x =>
      obtain ⟨v, b2⟩ := x
      have := hs _ _ _ hsr
      subst this
      simp only [hsr, Board.unplace_coe, Board.set_set_none b r c p he] at h
      cases h
      rfl
  · simp only [he, decide_False] at h
    cases h
    rfl

theorem foldlM_minimaxCell_frame (search : Board → Option (Int × Board)) (p : Player)
    (better : Int → Int → Bool) (hs : ∀ b1 v b2, search b1 = some (v, b2) → b2 = b1)
    (l : List (Fin 3 × Fin 3)) (best : Int) (b : Board) (st : Int × Board)
    (h : l.foldlM (fun st rc => minimaxCell search p better (rc.1.val : Int) (rc.2.val : Int) st)
      (best, b) = some st) :
    st.2 = b := by
  induction l generalizing best with
  | nil =>
    simp only [List.foldlM_nil] at h
    cases h
    rfl
  | cons rc l ih =>
    rw [List.foldlM_cons] at h
    cases hc : minimaxCell search p better (rc.1.val : Int) (rc.2.val : Int) (best, b) with
    | none => simp [hc] at h
    | some st1 =>
      obtain ⟨best1, b1⟩ := st1
      have hb : b1 = b := minimaxCell_frame search p better rc.1 rc.2 best b _ hs hc
      subst hb
      rw [hc] at h
      exact ih best1 h

theorem minimax_frame (fuel : Nat) (b : Board) (is_maximizing : Bool) (depth v : Int)
    (b' : Board) (h : minimax fuel b is_maximizing depth = some (v, b')) : b' = b := by
  induction fuel generalizing b is_maximizing depth v b' with
  | zero => simp [minimax] at h
  | succ fuel ih =>
    unfold minimax at h
    simp only at h
    split at h
    · cases h; rfl
    · split at h
      · cases h; rfl
      · split at h
        · rw [minimaxLoop_eq_foldlM] at h
          exact foldlM_minimaxCell_frame _ _ _ (fun b1 v b2 hh => ih _ _ _ _ _ hh) _ _ _ _ h
        · rw [minimaxLoop_eq_foldlM] at h
          exact foldlM_minimaxCell_frame _ _ _ (fun b1 v b2 hh => ih _ _ _ _ _ hh) _ _ _ _ h

theorem minimaxCell_value (search : Board → Option (Int × Board)) (p : Player)
    (better : Int → Int → Bool) (val : Fin 3 × Fin 3 → Int) (rc : Fin 3 × Fin 3) (best : Int)
    (b : Board)
    (hs : b.get rc.1 rc.2 = Player.None →
      search (b.set rc.1 rc.2 p) = some (val rc, b.set rc.1 rc.2 p)) :
    minimaxCell search p better (rc.1.val : Int) (rc.2.val : Int) (best, b) =
      some (pickStep b better val best rc, b) := by
  unfold minimaxCell pickStep
  simp only [Board.is_empty_coe, Board.place_coe]
  by_cases he : b.get rc.1 rc.2 = Player.None
  · simp only [he, decide_True, if_true, hs he, Board.unplace_coe,
      Board.set_set_none b rc.1 rc.2 p he]
  · simp only [he, decide_False, if_false]

theorem foldlM_minimaxCell_value (search : Board → Option (Int × Board)) (p : Player)
    (better : Int → Int → Bool) (val : Fin 3 × Fin 3 → Int) (b : Board)
    (l : List (Fin 3 × Fin 3))
    (hs : ∀ rc ∈ l, b.get rc.1 rc.2 = Player.None →
      search (b.set rc.1 rc.2 p) = some (val rc, b.set rc.1 rc.2 p))
    (best : Int) :
    l.foldlM (fun st rc => minimaxCell search p better (rc.1.val : Int) (rc.2.val : Int) st)
      (best, b) = some (l.foldl (pickStep b better val) best, b) := by
  induction l generalizing best with
  | nil => rfl
  | cons rc l ih =>
    rw [List.foldlM_cons, minimaxCell_value search p better val rc best b
      (hs rc (List.mem_cons_self _ _))]
    simp only [Option.some_bind, List.foldl_cons, Option.bind_eq_bind]
    exact ih (fun rc' hrc' => hs rc' (List.mem_cons_of_mem _ hrc')) _

/-! ## The number of empty cells -/

theorem allCells_nodup : allCells.Nodup := by decide

theorem mem_allCells (rc : Fin 3 × Fin 3) : rc ∈ allCells := by
  obtain ⟨r, c⟩ := rc
  fin_cases r <;> fin_cases c <;> decide

theorem countP_set_of_not_mem (b : Board) (r c : Fin 3) (p : Player)
    (l : List (Fin 3 × Fin 3)) (h : (r, c) ∉ l) :
    l.countP (fun rc => decide ((b.set r c p).get rc.1 rc.2 = Player.None)) =
      l.countP (fun rc => decide (b.get rc.1 rc.2 = Player.None)) := by
  apply List.countP_congr
  intro rc hrc
  have hne : ¬ (rc.1 = r ∧ rc.2 = c) := by
    rintro ⟨h1, h2⟩
    exact h (by rw [← h1, ← h2]; exact hrc)
  simp [Board.get_set, hne]

theorem countP_set_of_mem (b : Board) (r c : Fin 3) (p : Player) (hp : p ≠ Player.None)
    (he : b.get r c = Player.None) (l : List (Fin 3 × Fin 3)) (hnd : l.Nodup)
    (h : (r, c) ∈ l) :
    l.countP (fun rc => decide ((b.set r c p).get rc.1 rc.2 = Player.None)) + 1 =
      l.countP (fun rc => decide (b.get rc.1 rc.2 = Player.None)) := by
  induction l with
  | nil => simp at h
  | cons x l ih =>
    rw [List.nodup_cons] at hnd
    rw [List.countP_cons, List.countP_cons]
    by_cases hx : x = (r, c)
    · subst hx
      rw [countP_set_of_not_mem b r c p l hnd.1]
      simp [Board.get_set, he, hp]
    · have hmem : (r, c) ∈ l := by
        rcases List.mem_cons.mp h with h1 | h1
        · exact absurd h1.symm hx
        · exact h1
      have hne : ¬ (x.1 = r ∧ x.2 = c) := by
        rintro ⟨h1, h2⟩
        exact hx (Prod.ext h1 h2)
      have hx' : (b.set r c p).get x.1 x.2 = b.get x.1 x.2 := by
        simp [Board.get_set, hne]
      have := ih hnd.2 hmem
      rw [hx']
      omega

theorem emptyCount_set (b : Board) (r c : Fin 3) (p : Player) (hp : p ≠ Player.None)
    (he : b.get r c = Player.None) : emptyCount (b.set r c p) + 1 = emptyCount b :=
  countP_set_of_mem b r c p hp he allCells allCells_nodup (mem_allCells (r, c))

theorem emptyCount_le_nine (b : Board) : emptyCount b ≤ 9 := by
  unfold emptyCount
  exact (List.countP_le_length _).trans (by decide)

/-! ## `minimax` returns the score and restores the board -/

theorem minimax_eq_score (fuel : Nat) (b : Board) (is_maximizing : Bool) (depth : Int)
    (h : emptyCount b < fuel) :
    minimax fuel b is_maximizing depth = some (score fuel b is_maximizing depth, b) := by
  induction fuel generalizing b is_maximizing depth with
  | zero => omega
  | succ fuel ih =>
    unfold minimax score
    simp only
    split
    · rfl
    · split
      · rfl
      · have hrec : ∀ (p : Player), p ≠ Player.None → ∀ (t : Bool) (rc : Fin 3 × Fin 3),
            rc ∈ allCells → b.get rc.1 rc.2 = Player.None →
            minimax fuel (b.set rc.1 rc.2 p) t (wrapInt (depth + 1)) =
              some (score fuel (b.set rc.1 rc.2 p) t (wrapInt (depth + 1)), b.set rc.1 rc.2 p) := by
          intro p hp t rc _ he
          apply ih
          have := emptyCount_set b rc.1 rc.2 p hp he
          omega
        split
        · rw [minimaxLoop_eq_foldlM]
          exact foldlM_minimaxCell_value _ _ _ _ b allCells (hrec _ (by decide) _) _
        · rw [minimaxLoop_eq_foldlM]
          exact foldlM_minimaxCell_value _ _ _ _ b allCells (hrec _ (by decide) _) _

theorem wrapInt_of_small (x : Int) (h1 : -2147483648 ≤ x) (h2 : x ≤ 2147483647) :
    wrapInt x = x := by
  unfold wrapInt
  omega

theorem evaluate_board_computer (b : Board) (h : b.winner = some Player.Computer) :
    evaluate_board b = 10 := by
  simp [evaluate_board, h]

theorem evaluate_board_human (b : Board) (h : b.winner = some Player.Human) :
    evaluate_board b = -10 := by
  simp [evaluate_board, h]

theorem winner_ne_none_mark (b : Board) : b.winner ≠ some Player.None := by
  intro h
  exact (winner_some_line b _ h).1 rfl

theorem minimax_computer_win (fuel : Nat) (b : Board) (t : Bool) (d : Int)
    (hd : 0 ≤ d ∧ d ≤ 9) (h : b.winner = some Player.Computer) :
    minimax (fuel + 1) b t d = some (10 - d, b) := by
  unfold minimax
  simp only [evaluate_board_computer b h]
  rw [if_pos (Or.inl trivial)]
  simp only [gt_iff_lt, show (0 : Int) < 10 by decide, if_true]
  rw [wrapInt_of_small (d * 1) (by omega) (by omega), wrapInt_of_small _ (by omega) (by omega)]
  simp

theorem minimax_human_win (fuel : Nat) (b : Board) (t : Bool) (d : Int)
    (hd : 0 ≤ d ∧ d ≤ 9) (h : b.winner = some Player.Human) :
    minimax (fuel + 1) b t d = some (-10 + d, b) := by
  unfold minimax
  simp only [evaluate_board_human b h]
  rw [if_pos (Or.inr trivial)]
  simp only [gt_iff_lt, show ¬ ((0 : Int) < -10) by decide, if_false]
  rw [wrapInt_of_small (d * -1) (by omega) (by omega), wrapInt_of_small _ (by omega) (by omega)]
  congr 2
  omega

/-- C5: on a board where `winner()` yields a mark, `minimax` at a depth `d` in `0..9`
returns `10 - d` for a computer win and `-10 + d` for a human win, for either turn flag and
already with fuel for no recursive call at all (no placement is tried); the board is
left as it was.  A computer win scores above zero, a human win below zero, a win at depth
`0` scores `10` or `-10`, and a deeper win or loss is strictly closer to zero. -/
theorem minimax_win_score (b : Board) (p : Player) (t : Bool) (d : Int)
    (hw : b.winner = some p) (hd : 0 ≤ d ∧ d ≤ 9) :
    (p = Player.Computer ∨ p = Player.Human) ∧
    (p = Player.Computer →
      (∀ fuel, minimax (fuel + 1) b t d = some (10 - d, b)) ∧ 0 < 10 - d ∧
      (d = 0 → minimax 1 b t d = some (10, b)) ∧
      ∀ d', d < d' → d' ≤ 9 → ∃ v v', minimax 1 b t d = some (v, b) ∧
        minimax 1 b t d' = some (v', b) ∧ 0 < v' ∧ v' < v) ∧
    (p = Player.Human →
      (∀ fuel, minimax (fuel + 1) b t d = some (-10 + d, b)) ∧ -10 + d < 0 ∧
      (d = 0 → minimax 1 b t d = some (-10, b)) ∧
      ∀ d', d < d' → d' ≤ 9 → ∃ v v', minimax 1 b t d = some (v, b) ∧
        minimax 1 b t d' = some (v', b) ∧ v < v' ∧ v' < 0) := by
  refine ⟨?_, ?_, ?_⟩
  · cases p with
    | None => exact absurd hw (winner_ne_none_mark b)
    | Human => exact Or.inr rfl
    | Computer => exact Or.inl rfl
  · intro hp
    subst hp
    refine ⟨fun fuel => minimax_computer_win fuel b t d hd hw, by omega, ?_, ?_⟩
    · intro h0
      subst h0
      exact minimax_computer_win 0 b t 0 hd hw
    · intro d' h1 h2
      exact ⟨10 - d, 10 - d', minimax_computer_win 0 b t d hd hw,
        minimax_computer_win 0 b t d' ⟨by omega, h2⟩ hw, by omega, by omega⟩
  · intro hp
    subst hp
    refine ⟨fun fuel => minimax_human_win fuel b t d hd hw, by omega, ?_, ?_⟩
    · intro h0
      subst h0
      exact minimax_human_win 0 b t 0 hd hw
    · intro d' h1 h2
      exact ⟨-10 + d, -10 + d', minimax_human_win 0 b t d hd hw,
        minimax_human_win 0 b t d' ⟨by omega, h2⟩ hw, by omega, by omega⟩

/-- C6: whenever `minimax` returns, for any board, turn flag and depth, the board it
leaves behind equals the board before the call; and it does return once the fuel exceeds
the number of empty cells. -/
theorem minimax_restores_board (fuel : Nat) (b : Board) (is_maximizing : Bool) (depth : Int) :
    (∀ v b', minimax fuel b is_maximizing depth = some (v, b') →
      b' = b ∧ ∀ r c, b'.get r c = b.get r c) ∧
    (emptyCount b < fuel → ∃ v, minimax fuel b is_maximizing depth = some (v, b)) := by
  constructor
  · intro v b' h
    have := minimax_frame fuel b is_maximizing depth v b' h
    subst this
    exact ⟨rfl, fun _ _ => rfl⟩
  · intro h
    exact ⟨_, minimax_eq_score fuel b is_maximizing depth h⟩

/-! ## The loop of `find_best_move` -/

theorem find_best_move_eq_foldlM (fuel : Nat) (b : Board) :
    find_best_move fuel b =
      (allCells.foldlM
        (fun st rc => bestMoveCell fuel (rc.1.val : Int) (rc.2.val : Int) st)
        (INT_MIN, (⟨-1, -1⟩ : Move), b)).map (fun st => (st.2.1, st.2.2)) := by
  unfold find_best_move
  have : indices.foldlM (fun st r => indices.foldlM (fun st c => bestMoveCell fuel r c st) st)
      (INT_MIN, (⟨-1, -1⟩ : Move), b) =
      allCells.foldlM
        (fun st rc => bestMoveCell fuel (rc.1.val : Int) (rc.2.val : Int) st)
        (INT_MIN, (⟨-1, -1⟩ : Move), b) := by
    simp [indices, allCells, List.foldlM, Option.bind_assoc]
  rw [this]
  cases allCells.foldlM
      (fun st rc => bestMoveCell fuel (rc.1.val : Int) (rc.2.val : Int) st)
      (INT_MIN, (⟨-1, -1⟩ : Move), b) with
  | none => rfl
  | some st => rfl

theorem bestMoveCell_frame (fuel : Nat) (rc : Fin 3 × Fin 3) (st st' : Int × Move × Board)
    (h : bestMoveCell fuel (rc.1.val : Int) (rc.2.val : Int) st = some st') :
    st'.2.2 = st.2.2 := by
  obtain ⟨bv, bm, b⟩ := st
  unfold bestMoveCell at h
  simp only [Board.is_empty_coe, Board.place_coe] at h
  by_cases he : b.get rc.1 rc.2 = Player.None
  · simp only [he, decide_True, if_true] at h
    cases hsr : minimax fuel (b.set rc.1 rc.2 Player.Computer) false 0 with
    | none => simp [hsr] at h
    | some x =>
      obtain ⟨v, b2⟩ := x
      have := minimax_frame _ _ _ _ _ _ hsr
      subst this
      simp only [hsr, Board.unplace_coe, Board.set_set_none b rc.1 rc.2 _ he] at h
      split at h <;> (cases h; rfl)
  · simp only [he, decide_False] at h
    cases h
    rfl

theorem foldlM_bestMoveCell_frame (fuel : Nat) (l : List (Fin 3 × Fin 3))
    (st st' : Int × Move × Board)
    (h : l.foldlM (fun st rc => bestMoveCell fuel (rc.1.val : Int) (rc.2.val : Int) st) st
      = some st') :
    st'.2.2 = st.2.2 := by
  induction l generalizing st with
  | nil =>
    simp only [List.foldlM_nil] at h
    cases h
    rfl
  | cons rc l ih =>
    rw [List.foldlM_cons] at h
    cases hc : bestMoveCell fuel (rc.1.val : Int) (rc.2.val : Int) st with
    | none => simp [hc] at h
    | some st1 =>
      rw [hc] at h
      rw [ih st1 h]
      exact bestMoveCell_frame fuel rc st st1 hc

theorem find_best_move_frame (fuel : Nat) (b : Board) (mv : Move) (b' : Board)
    (h : find_best_move fuel b = some (mv, b')) : b' = b := by
  rw [find_best_move_eq_foldlM, Option.map_eq_some'] at h
  obtain ⟨st, hst, heq⟩ := h
  have := foldlM_bestMoveCell_frame fuel allCells _ st hst
  cases heq
  exact this

theorem bestMoveCell_value (fuel : Nat) (val : Fin 3 × Fin 3 → Int) (rc : Fin 3 × Fin 3)
    (st : Int × Move) (b : Board)
    (hs : b.get rc.1 rc.2 = Player.None →
      minimax fuel (b.set rc.1 rc.2 Player.Computer) false 0
        = some (val rc, b.set rc.1 rc.2 Player.Computer)) :
    bestMoveCell fuel (rc.1.val : Int) (rc.2.val : Int) (st.1, st.2, b) =
      some ((bestStep b val st rc).1, (bestStep b val st rc).2, b) := by
  unfold bestMoveCell bestStep moveOf
  simp only [Board.is_empty_coe, Board.place_coe]
  by_cases he : b.get rc.1 rc.2 = Player.None
  · simp only [he, decide_True, if_true, hs he, Board.unplace_coe,
      Board.set_set_none b rc.1 rc.2 _ he]
    split <;> rfl
  · simp only [he, decide_False, if_false]

theorem foldlM_bestMoveCell_value (fuel : Nat) (val : Fin 3 × Fin 3 → Int) (b : Board)
    (l : List (Fin 3 × Fin 3))
    (hs : ∀ rc ∈ l, b.get rc.1 rc.2 = Player.None →
      minimax fuel (b.set rc.1 rc.2 Player.Computer) false 0
        = some (val rc, b.set rc.1 rc.2 Player.Computer))
    (st : Int × Move) :
    l.foldlM (fun st rc => bestMoveCell fuel (rc.1.val : Int) (rc.2.val : Int) st)
      (st.1, st.2, b) =
      some ((l.foldl (bestStep b val) st).1, (l.foldl (bestStep b val) st).2, b) := by
  induction l generalizing st with
  | nil => rfl
  | cons rc l ih =>
    rw [List.foldlM_cons, bestMoveCell_value fuel val rc st b (hs rc (List.mem_cons_self _ _))]
    simp only [Option.some_bind, List.foldl_cons, Option.bind_eq_bind]
    exact ih (fun rc' hrc' => hs rc' (List.mem_cons_of_mem _ hrc')) _

theorem find_best_move_eq (fuel : Nat) (b : Board) (h : emptyCount b ≤ fuel) :
    find_best_move fuel b =
      some ((allCells.foldl
        (bestStep b (fun rc => score fuel (b.set rc.1 rc.2 Player.Computer) false 0))
        (INT_MIN, (⟨-1, -1⟩ : Move))).2, b) := by
  rw [find_best_move_eq_foldlM]
  have := foldlM_bestMoveCell_value fuel
    (fun rc => score fuel (b.set rc.1 rc.2 Player.Computer) false 0) b allCells
    (fun rc _ he => minimax_eq_score fuel _ false 0 (by
      have := emptyCount_set b rc.1 rc.2 Player.Computer (by decide) he
      omega))
    (INT_MIN, (⟨-1, -1⟩ : Move))
  rw [this]
  rfl

/-! ## What the loops compute -/

theorem foldl_pickStep_max (b : Board) (val : Fin 3 × Fin 3 → Int) (l : List (Fin 3 × Fin 3))
    (init : Int) :
    init ≤ l.foldl (pickStep b (fun value best => decide (value > best)) val) init ∧
    (∀ rc ∈ l, b.get rc.1 rc.2 = Player.None →
      val rc ≤ l.foldl (pickStep b (fun value best => decide (value > best)) val) init) ∧
    (l.foldl (pickStep b (fun value best => decide (value > best)) val) init = init ∨
      ∃ rc ∈ l, b.get rc.1 rc.2 = Player.None ∧
        l.foldl (pickStep b (fun value best => decide (value > best)) val) init = val rc) := by
  induction l generalizing init with
  | nil => simp
  | cons x l ih =>
    rw [List.foldl_cons]
    obtain ⟨h1, h2, h3⟩ := ih (pickStep b (fun value best => decide (value > best)) val init x)
    have hstep : init ≤ pickStep b (fun value best => decide (value > best)) val init x ∧
        (b.get x.1 x.2 = Player.None →
          val x ≤ pickStep b (fun value best => decide (value > best)) val init x) ∧
        (pickStep b (fun value best => decide (value > best)) val init x = init ∨
          (b.get x.1 x.2 = Player.None ∧
            pickStep b (fun value best => decide (value > best)) val init x = val x)) := by
      by_cases he : b.get x.1 x.2 = Player.None
      · by_cases hv : val x > init
        · have e : pickStep b (fun value best => decide (value > best)) val init x = val x := by
            simp [pickStep, he, hv]
          rw [e]
          exact ⟨by omega, fun _ => le_refl _, Or.inr ⟨he, rfl⟩⟩
        · have e : pickStep b (fun value best => decide (value > best)) val init x = init := by
            simp only [pickStep, he, hv, decide_False, if_true]
            rfl
          rw [e]
          exact ⟨le_refl _, fun _ => by omega, Or.inl rfl⟩
      · have e : pickStep b (fun value best => decide (value > best)) val init x = init := by
          simp [pickStep, he]
        rw [e]
        exact ⟨le_refl _, fun h => absurd h he, Or.inl rfl⟩
    obtain ⟨s1, s2, s3⟩ := hstep
    refine ⟨le_trans s1 h1, ?_, ?_⟩
    · intro rc hrc he
      rcases List.mem_cons.mp hrc with rfl | hmem
      · exact le_trans (s2 he) h1
      · exact h2 rc hmem he
    · rcases h3 with h3 | ⟨rc, hrc, he, h3⟩
      · rcases s3 with s3 | ⟨he, s3⟩
        · left; rw [h3, s3]
        · right; exact ⟨x, List.mem_cons_self _ _, he, by rw [h3, s3]⟩
      · right; exact ⟨rc, List.mem_cons_of_mem _ hrc, he, h3⟩

theorem foldl_pickStep_min (b : Board) (val : Fin 3 × Fin 3 → Int) (l : List (Fin 3 × Fin 3))
    (init : Int) :
    l.foldl (pickStep b (fun value best => decide (value < best)) val) init ≤ init ∧
    (∀ rc ∈ l, b.get rc.1 rc.2 = Player.None →
      l.foldl (pickStep b (fun value best => decide (value < best)) val) init ≤ val rc) ∧
    (l.foldl (pickStep b (fun value best => decide (value < best)) val) init = init ∨
      ∃ rc ∈ l, b.get rc.1 rc.2 = Player.None ∧
        l.foldl (pickStep b (fun value best => decide (value < best)) val) init = val rc) := by
  induction l generalizing init with
  | nil => simp
  | cons x l ih =>
    rw [List.foldl_cons]
    obtain ⟨h1, h2, h3⟩ := ih (pickStep b (fun value best => decide (value < best)) val init x)
    have hstep : pickStep b (fun value best => decide (value < best)) val init x ≤ init ∧
        (b.get x.1 x.2 = Player.None →
          pickStep b (fun value best => decide (value < best)) val init x ≤ val x) ∧
        (pickStep b (fun value best => decide (value < best)) val init x = init ∨
          (b.get x.1 x.2 = Player.None ∧
            pickStep b (fun value best => decide (value < best)) val init x = val x)) := by
      by_cases he : b.get x.1 x.2 = Player.None
      · by_cases hv : val x < init
        · have e : pickStep b (fun value best => decide (value < best)) val init x = val x := by
            simp [pickStep, he, hv]
          rw [e]
          exact ⟨by omega, fun _ => le_refl _, Or.inr ⟨he, rfl⟩⟩
        · have e : pickStep b (fun value best => decide (value < best)) val init x = init := by
            simp only [pickStep, he, hv, decide_False, if_true]
            rfl
          rw [e]
          exact ⟨le_refl _, fun _ => by omega, Or.inl rfl⟩
      · have e : pickStep b (fun value best => decide (value < best)) val init x = init := by
          simp [pickStep, he]
        rw [e]
        exact ⟨le_refl _, fun h => absurd h he, Or.inl rfl⟩
    obtain ⟨s1, s2, s3⟩ := hstep
    refine ⟨le_trans h1 s1, ?_, ?_⟩
    · intro rc hrc he
      rcases List.mem_cons.mp hrc with rfl | hmem
      · exact le_trans h1 (s2 he)
      · exact h2 rc hmem he
    · rcases h3 with h3 | ⟨rc, hrc, he, h3⟩
      · rcases s3 with s3 | ⟨he, s3⟩
        · left; rw [h3, s3]
        · right; exact ⟨x, List.mem_cons_self _ _, he, by rw [h3, s3]⟩
      · right; exact ⟨rc, List.mem_cons_of_mem _ hrc, he, h3⟩

theorem foldl_bestStep_spec (b : Board) (val : Fin 3 × Fin 3 → Int) (l : List (Fin 3 × Fin 3))
    (st : Int × Move) :
    (l.foldl (bestStep b val) st = st ∧
      ∀ rc ∈ l, b.get rc.1 rc.2 = Player.None → val rc ≤ st.1) ∨
    ∃ pre rc suf, l = pre ++ rc :: suf ∧ b.get rc.1 rc.2 = Player.None ∧
      l.foldl (bestStep b val) st = (val rc, moveOf rc) ∧ st.1 < val rc ∧
      (∀ rc' ∈ pre, b.get rc'.1 rc'.2 = Player.None → val rc' < val rc) ∧
      (∀ rc' ∈ suf, b.get rc'.1 rc'.2 = Player.None → val rc' ≤ val rc) := by
  induction l generalizing st with
  | nil => left; simp
  | cons x l ih =>
    rw [List.foldl_cons]
    by_cases hx : b.get x.1 x.2 = Player.None ∧ val x > st.1
    · have hs : bestStep b val st x = (val x, moveOf x) := by
        simp [bestStep, hx.1, hx.2]
      rw [hs]
      rcases ih (val x, moveOf x) with ⟨h1, h2⟩ | ⟨pre, rc, suf, hl, he, hres, hlt, hpre, hsuf⟩
      · right
        exact ⟨[], x, l, rfl, hx.1, h1, hx.2, by simp, h2⟩
      · right
        refine ⟨x :: pre, rc, suf, by rw [hl]; rfl, he, hres, ?_, ?_, hsuf⟩
        · have : (val x, moveOf x).1 < val rc := hlt
          simp only at this
          omega
        · intro rc' hrc' he'
          rcases List.mem_cons.mp hrc' with rfl | hmem
          · exact hlt
          · exact hpre rc' hmem he'
    · have hs : bestStep b val st x = st := by
        unfold bestStep
        by_cases he : b.get x.1 x.2 = Player.None
        · have : ¬ val x > st.1 := fun hv => hx ⟨he, hv⟩
          simp [he, this]
        · simp [he]
      rw [hs]
      have hxle : b.get x.1 x.2 = Player.None → val x ≤ st.1 := by
        intro he
        by_contra hv
        exact hx ⟨he, by omega⟩
      rcases ih st with ⟨h1, h2⟩ | ⟨pre, rc, suf, hl, he, hres, hlt, hpre, hsuf⟩
      · left
        refine ⟨h1, ?_⟩
        intro rc hrc he
        rcases List.mem_cons.mp hrc with rfl | hmem
        · exact hxle he
        · exact h2 rc hmem he
      · right
        refine ⟨x :: pre, rc, suf, by rw [hl]; rfl, he, hres, hlt, ?_, hsuf⟩
        intro rc' hrc' he'
        rcases List.mem_cons.mp hrc' with rfl | hmem
        · have := hxle he'
          omega
        · exact hpre rc' hmem he'

/-! ## Full boards -/

theorem is_full_iff (b : Board) : b.is_full = true ↔ ∀ r c, b.get r c ≠ Player.None := by
  simp [Board.is_full, List.all_eq_true]

theorem not_full_iff (b : Board) :
    ¬ (b.is_full = true) ↔ ∃ rc : Fin 3 × Fin 3, b.get rc.1 rc.2 = Player.None := by
  rw [is_full_iff]
  push_neg
  constructor
  · rintro ⟨r, c, h⟩
    exact ⟨(r, c), h⟩
  · rintro ⟨rc, h⟩
    exact ⟨rc.1, rc.2, h⟩

theorem emptyCount_pos_iff (b : Board) :
    0 < emptyCount b ↔ ∃ rc : Fin 3 × Fin 3, b.get rc.1 rc.2 = Player.None := by
  unfold emptyCount
  rw [List.countP_pos_iff]
  constructor
  · rintro ⟨rc, _, h⟩
    exact ⟨rc, by simpa using h⟩
  · rintro ⟨rc, h⟩
    exact ⟨rc, mem_allCells rc, by simpa using h⟩

/-! ## The score: terminal boards, one ply of search, bounds -/

theorem evaluate_board_eq_ten_iff (b : Board) :
    evaluate_board b = 10 ↔ b.winner = some Player.Computer := by
  unfold evaluate_board
  cases h : b.winner with
  | none => simp
  | some w => cases w <;> simp

theorem evaluate_board_eq_neg_ten_iff (b : Board) :
    evaluate_board b = -10 ↔ b.winner = some Player.Human := by
  unfold evaluate_board
  cases h : b.winner with
  | none => simp
  | some w => cases w <;> simp

theorem not_decisive_iff (b : Board) :
    ¬ (evaluate_board b = 10 ∨ evaluate_board b = -10) ↔ b.winner = none := by
  rw [evaluate_board_eq_ten_iff, evaluate_board_eq_neg_ten_iff]
  cases h : b.winner with
  | none => simp
  | some w =>
    cases w with
    | None => exact absurd h (winner_ne_none_mark b)
    | Human => simp
    | Computer => simp

theorem score_computer_win (fuel : Nat) (b : Board) (t : Bool) (d : Int)
    (hd : 0 ≤ d ∧ d ≤ 10) (h : b.winner = some Player.Computer) :
    score (fuel + 1) b t d = 10 - d := by
  unfold score
  simp only [evaluate_board_computer b h]
  rw [if_pos (Or.inl trivial)]
  simp only [gt_iff_lt, show (0 : Int) < 10 by decide, if_true]
  rw [wrapInt_of_small (d * 1) (by omega) (by omega), wrapInt_of_small _ (by omega) (by omega)]
  omega

theorem score_human_win (fuel : Nat) (b : Board) (t : Bool) (d : Int)
    (hd : 0 ≤ d ∧ d ≤ 10) (h : b.winner = some Player.Human) :
    score (fuel + 1) b t d = -10 + d := by
  unfold score
  simp only [evaluate_board_human b h]
  rw [if_pos (Or.inr trivial)]
  simp only [gt_iff_lt, show ¬ ((0 : Int) < -10) by decide, if_false]
  rw [wrapInt_of_small (d * -1) (by omega) (by omega), wrapInt_of_small _ (by omega) (by omega)]
  omega

theorem score_full (fuel : Nat) (b : Board) (t : Bool) (d : Int)
    (hw : b.winner = none) (hf : b.is_full = true) : score (fuel + 1) b t d = 0 := by
  unfold score
  rw [if_neg ((not_decisive_iff b).mpr hw), if_pos hf]

theorem score_max (fuel : Nat) (b : Board) (d : Int)
    (hw : b.winner = none) (hf : ¬ b.is_full = true) :
    score (fuel + 1) b true d =
      allCells.foldl
        (pickStep b (fun value best => decide (value > best))
          (fun rc => score fuel (b.set rc.1 rc.2 Player.Computer) false (wrapInt (d + 1))))
        INT_MIN := by
  rw [score, if_neg ((not_decisive_iff b).mpr hw), if_neg hf, if_pos rfl]

theorem score_min (fuel : Nat) (b : Board) (d : Int)
    (hw : b.winner = none) (hf : ¬ b.is_full = true) :
    score (fuel + 1) b false d =
      allCells.foldl
        (pickStep b (fun value best => decide (value < best))
          (fun rc => score fuel (b.set rc.1 rc.2 Player.Human) true (wrapInt (d + 1))))
        INT_MAX := by
  rw [score, if_neg ((not_decisive_iff b).mpr hw), if_neg hf, if_neg (by decide)]

theorem winner_cases (b : Board) :
    b.winner = some Player.Computer ∨ b.winner = some Player.Human ∨ b.winner = none := by
  cases h : b.winner with
  | none => simp
  | some w =>
    cases w with
    | None => exact absurd h (winner_ne_none_mark b)
    | Human => simp
    | Computer => simp

theorem score_bounds (fuel : Nat) (b : Board) (t : Bool) (d : Int)
    (hd : 0 ≤ d) (hde : d + emptyCount b ≤ 9) (hfuel : emptyCount b < fuel) :
    -10 + d ≤ score fuel b t d ∧ score fuel b t d ≤ 10 - d := by
  induction fuel generalizing b t d with
  | zero => omega
  | succ fuel ih =>
    rcases winner_cases b with hw | hw | hw
    · rw [score_computer_win fuel b t d ⟨hd, by omega⟩ hw]; omega
    · rw [score_human_win fuel b t d ⟨hd, by omega⟩ hw]; omega
    · by_cases hf : b.is_full = true
      · rw [score_full fuel b t d hw hf]; omega
      · obtain ⟨rc0, he0⟩ := (not_full_iff b).mp hf
        have hw1 : wrapInt (d + 1) = d + 1 := wrapInt_of_small _ (by omega) (by omega)
        have hch : ∀ (p : Player), p ≠ Player.None → ∀ (t' : Bool) (rc : Fin 3 × Fin 3),
            b.get rc.1 rc.2 = Player.None →
            -10 + (d + 1) ≤ score fuel (b.set rc.1 rc.2 p) t' (d + 1) ∧
              score fuel (b.set rc.1 rc.2 p) t' (d + 1) ≤ 10 - (d + 1) := by
          intro p hp t' rc he
          have := emptyCount_set b rc.1 rc.2 p hp he
          exact ih _ _ _ (by omega) (by omega) (by omega)
        cases t with
        | true =>
          rw [score_max fuel b d hw hf, hw1]
          obtain ⟨_, h2, h3⟩ := foldl_pickStep_max b
            (fun rc => score fuel (b.set rc.1 rc.2 Player.Computer) false (d + 1)) allCells INT_MIN
          have hlow := h2 rc0 (mem_allCells rc0) he0
          have hb0 := hch Player.Computer (by decide) false rc0 he0
          simp only at hlow
          rcases h3 with h3 | ⟨rc, _, he, h3⟩
          · rw [h3] at hlow
            unfold INT_MIN at hlow
            omega
          · have hb := hch Player.Computer (by decide) false rc he
            rw [h3]
            rw [h3] at hlow
            omega
        | false =>
          rw [score_min fuel b d hw hf, hw1]
          obtain ⟨_, h2, h3⟩ := foldl_pickStep_min b
            (fun rc => score fuel (b.set rc.1 rc.2 Player.Human) true (d + 1)) allCells INT_MAX
          have hup := h2 rc0 (mem_allCells rc0) he0
          have hb0 := hch Player.Human (by decide) true rc0 he0
          simp only at hup
          rcases h3 with h3 | ⟨rc, _, he, h3⟩
          · rw [h3] at hup
            unfold INT_MAX at hup
            omega
          · have hb := hch Player.Human (by decide) true rc he
            rw [h3]
            rw [h3] at hup
            omega

/-! ## `find_best_move` -/

theorem allCells_scan_order : allCells.Pairwise scanBefore := by decide

theorem moveValue_eq_score (fuel : Nat) (b : Board) (rc : Fin 3 × Fin 3)
    (he : b.get rc.1 rc.2 = Player.None) (hfuel : emptyCount b ≤ fuel) :
    moveValue fuel b rc = some (score fuel (b.set rc.1 rc.2 Player.Computer) false 0) := by
  unfold moveValue
  rw [minimax_eq_score fuel _ false 0 (by
    have := emptyCount_set b rc.1 rc.2 Player.Computer (by decide) he
    omega)]
  rfl

theorem moveValue_bounds (fuel : Nat) (b : Board) (rc : Fin 3 × Fin 3)
    (he : b.get rc.1 rc.2 = Player.None) (hfuel : emptyCount b ≤ fuel) :
    -10 ≤ score fuel (b.set rc.1 rc.2 Player.Computer) false 0 ∧
      score fuel (b.set rc.1 rc.2 Player.Computer) false 0 ≤ 10 := by
  have h1 := emptyCount_set b rc.1 rc.2 Player.Computer (by decide) he
  have h2 := emptyCount_le_nine b
  have := score_bounds fuel (b.set rc.1 rc.2 Player.Computer) false 0 (le_refl _)
    (by omega) (by omega)
  omega

theorem find_best_move_spec (fuel : Nat) (b : Board) (hpos : 0 < emptyCount b)
    (hfuel : emptyCount b ≤ fuel) :
    ∃ rc : Fin 3 × Fin 3,
      find_best_move fuel b = some (moveOf rc, b) ∧ b.get rc.1 rc.2 = Player.None ∧
      ∀ rc' : Fin 3 × Fin 3, b.get rc'.1 rc'.2 = Player.None →
        score fuel (b.set rc'.1 rc'.2 Player.Computer) false 0 ≤
          score fuel (b.set rc.1 rc.2 Player.Computer) false 0 ∧
        (score fuel (b.set rc'.1 rc'.2 Player.Computer) false 0 =
          score fuel (b.set rc.1 rc.2 Player.Computer) false 0 →
          rc = rc' ∨ scanBefore rc rc') := by
  obtain ⟨rc0, he0⟩ := (emptyCount_pos_iff b).mp hpos
  rw [find_best_move_eq fuel b hfuel]
  rcases foldl_bestStep_spec b
      (fun rc => score fuel (b.set rc.1 rc.2 Player.Computer) false 0) allCells
      (INT_MIN, (⟨-1, -1⟩ : Move)) with
    ⟨_, h2⟩ | ⟨pre, rc, suf, hl, he, hres, _, hpre, hsuf⟩
  · have h := h2 rc0 (mem_allCells rc0) he0
    have hb := moveValue_bounds fuel b rc0 he0 hfuel
    simp only [INT_MIN] at h
    omega
  · refine ⟨rc, by rw [hres], he, ?_⟩
    intro rc' he'
    have hmem : rc' ∈ pre ++ rc :: suf := hl ▸ mem_allCells rc'
    have hord : (pre ++ rc :: suf).Pairwise scanBefore := hl ▸ allCells_scan_order
    rcases List.mem_append.mp hmem with hp | hp
    · have := hpre rc' hp he'
      simp only at this
      exact ⟨by omega, fun heq => by omega⟩
    · rcases List.mem_cons.mp hp with rfl | hs
      · exact ⟨le_refl _, fun _ => Or.inl rfl⟩
      · refine ⟨hsuf rc' hs he', fun _ => Or.inr ?_⟩
        have := (List.pairwise_append.mp hord).2.1
        exact (List.pairwise_cons.mp this).1 rc' hs

/-- C2: on a board with an empty cell, `find_best_move` returns the first cell, in row-major
scan order, among the empty cells of greatest value, the value of an empty cell being what
`minimax(false, 0)` returns on the board with the computer's mark placed there: no empty cell
has a greater value, and an empty cell of equal value is the returned cell or comes later in
the scan. -/
theorem find_best_move_first_greatest (fuel : Nat) (b : Board) (hpos : 0 < emptyCount b)
    (hfuel : emptyCount b ≤ fuel) :
    ∃ (rc : Fin 3 × Fin 3) (v : Int),
      find_best_move fuel b = some (⟨(rc.1.val : Int), (rc.2.val : Int)⟩, b) ∧
      b.get rc.1 rc.2 = Player.None ∧ moveValue fuel b rc = some v ∧
      ∀ rc' : Fin 3 × Fin 3, b.get rc'.1 rc'.2 = Player.None →
        ∃ v', moveValue fuel b rc' = some v' ∧ v' ≤ v ∧
          (v' = v → rc = rc' ∨ rc.1 < rc'.1 ∨ (rc.1 = rc'.1 ∧ rc.2 < rc'.2)) := by
  obtain ⟨rc, hres, he, hall⟩ := find_best_move_spec fuel b hpos hfuel
  refine ⟨rc, _, hres, he, moveValue_eq_score fuel b rc he hfuel, ?_⟩
  intro rc' he'
  exact ⟨_, moveValue_eq_score fuel b rc' he' hfuel, (hall rc' he').1, (hall rc' he').2⟩

/-- C7: on a board with an empty cell, `find_best_move` leaves the board as it was before
the call, and the move it returns has row and column in `0..2` and names a cell that is
`None` on that board. -/
theorem find_best_move_restores_board (fuel : Nat) (b : Board) (hpos : 0 < emptyCount b)
    (hfuel : emptyCount b ≤ fuel) :
    ∃ (mv : Move) (b' : Board), find_best_move fuel b = some (mv, b') ∧
      b' = b ∧ (∀ r c, b'.get r c = b.get r c) ∧
      0 ≤ mv.row ∧ mv.row ≤ 2 ∧ 0 ≤ mv.col ∧ mv.col ≤ 2 ∧
      b.cell mv.row mv.col = some Player.None ∧ b.is_empty mv.row mv.col = some true := by
  obtain ⟨rc, hres, he, _⟩ := find_best_move_spec fuel b hpos hfuel
  have h1 := rc.1.isLt
  have h2 := rc.2.isLt
  refine ⟨moveOf rc, b, hres, rfl, fun _ _ => rfl, ?_, ?_, ?_, ?_, ?_, ?_⟩
  · simp [moveOf]
  · simp only [moveOf]; omega
  · simp [moveOf]
  · simp only [moveOf]; omega
  · simp only [moveOf, Board.cell_coe, he]
  · simp only [moveOf, Board.is_empty_coe, he, decide_True]

/-- C8: on a board with an empty cell, `computer_turn` changes exactly one cell: `place`
succeeds on the cell that `find_best_move` returns for that board, that cell goes from
`None` to the computer's mark, and every other cell keeps its mark. -/
theorem computer_turn_changes_one_cell (fuel : Nat) (b : Board) (hpos : 0 < emptyCount b)
    (hfuel : emptyCount b ≤ fuel) :
    ∃ (rc : Fin 3 × Fin 3) (b' : Board),
      find_best_move fuel b = some (⟨(rc.1.val : Int), (rc.2.val : Int)⟩, b) ∧
      b.place (rc.1.val : Int) (rc.2.val : Int) Player.Computer = some (true, b') ∧
      computer_turn fuel b = some b' ∧
      b.get rc.1 rc.2 = Player.None ∧ b'.get rc.1 rc.2 = Player.Computer ∧
      ∀ r c, (r, c) ≠ rc → b'.get r c = b.get r c := by
  obtain ⟨rc, hres, he, _⟩ := find_best_move_spec fuel b hpos hfuel
  have hplace : b.place (rc.1.val : Int) (rc.2.val : Int) Player.Computer
      = some (true, b.set rc.1 rc.2 Player.Computer) := by
    rw [Board.place_coe, if_pos he]
  refine ⟨rc, b.set rc.1 rc.2 Player.Computer, hres, hplace, ?_, he, ?_, ?_⟩
  · unfold computer_turn
    rw [hres]
    simp only [moveOf, hplace]
  · simp [Board.get_set]
  · intro r c hne
    rw [Board.get_set, if_neg]
    rintro ⟨h1, h2⟩
    exact hne (by rw [h1, h2])

/-! ## Completing a line with one placement -/

theorem get_set_pair (b : Board) (rc x : Fin 3 × Fin 3) (p : Player) :
    (b.set rc.1 rc.2 p).get x.1 x.2 = if x = rc then p else b.get x.1 x.2 := by
  rw [Board.get_set]
  by_cases h : x = rc
  · subst h; simp
  · have : ¬ (x.1 = rc.1 ∧ x.2 = rc.2) := fun hh => h (Prod.ext hh.1 hh.2)
    simp [h, this]

theorem lineComplete_set (b : Board) (rc : Fin 3 × Fin 3) (p : Player)
    (l : (Fin 3 × Fin 3) × (Fin 3 × Fin 3) × (Fin 3 × Fin 3)) (hp : p ≠ Player.None)
    (hnc : lineComplete b l = false) :
    lineComplete (b.set rc.1 rc.2 p) l =
      (lineHas l rc &&
        decide ((l.1 = rc ∨ b.get l.1.1 l.1.2 = p) ∧ (l.2.1 = rc ∨ b.get l.2.1.1 l.2.1.2 = p) ∧
          (l.2.2 = rc ∨ b.get l.2.2.1 l.2.2.2 = p))) := by
  obtain ⟨x, y, z⟩ := l
  simp only [lineComplete, threeEqual, lineHas, get_set_pair] at hnc ⊢
  rw [decide_eq_false_iff_not] at hnc
  rw [Bool.eq_iff_iff]
  simp only [Bool.and_eq_true, decide_eq_true_eq]
  generalize b.get x.1 x.2 = a, b.get y.1 y.2 = a', b.get z.1 z.2 = a'' at hnc ⊢
  by_cases hx : x = rc <;> by_cases hy : y = rc <;> by_cases hz : z = rc <;>
    simp only [hx, hy, hz, if_true, if_false, true_or, false_or, true_and, and_true, ne_eq,
      not_false_eq_true, hp, and_self, or_self, false_and] <;>
    cases a <;> cases a' <;> cases a'' <;> cases p <;> simp_all

theorem find_lineComplete_set (b : Board) (rc : Fin 3 × Fin 3) (p : Player)
    (hp : p ≠ Player.None)
    (L : List ((Fin 3 × Fin 3) × (Fin 3 × Fin 3) × (Fin 3 × Fin 3)))
    (hL : ∀ l ∈ L, lineComplete b l = false) :
    (L.find? (lineComplete (b.set rc.1 rc.2 p))).map
        (fun l => (b.set rc.1 rc.2 p).get l.1.1 l.1.2) =
      if L.any (fun l =>
        lineHas l rc &&
          decide ((l.1 = rc ∨ b.get l.1.1 l.1.2 = p) ∧ (l.2.1 = rc ∨ b.get l.2.1.1 l.2.1.2 = p) ∧
            (l.2.2 = rc ∨ b.get l.2.2.1 l.2.2.2 = p))) = true
      then some p else none := by
  induction L with
  | nil => rfl
  | cons l L ih =>
    rw [List.find?_cons, List.any_cons,
      lineComplete_set b rc p l hp (hL l (List.mem_cons_self _ _))]
    cases hg : (lineHas l rc &&
        decide ((l.1 = rc ∨ b.get l.1.1 l.1.2 = p) ∧ (l.2.1 = rc ∨ b.get l.2.1.1 l.2.1.2 = p) ∧
          (l.2.2 = rc ∨ b.get l.2.2.1 l.2.2.2 = p))) with
    | true =>
      simp only [Bool.and_eq_true, decide_eq_true_eq] at hg
      have : (b.set rc.1 rc.2 p).get l.1.1 l.1.2 = p := by
        rw [get_set_pair]
        rcases hg.2.1 with h | h
        · rw [if_pos h]
        · by_cases hx : l.1 = rc
          · rw [if_pos hx]
          · rw [if_neg hx, h]
      simp [this]
    | false =>
      simp only [Bool.false_or]
      exact ih (fun l' hl' => hL l' (List.mem_cons_of_mem _ hl'))

theorem winner_set (b : Board) (rc : Fin 3 × Fin 3) (p : Player) (hw : b.winner = none)
    (hp : p ≠ Player.None) (he : b.get rc.1 rc.2 = Player.None) :
    (b.set rc.1 rc.2 p).winner = if completesLine b rc p = true then some p else none := by
  rw [winner_eq_firstCompleteLine]
  unfold firstCompleteLine completesLine
  rw [find_lineComplete_set b rc p hp lines ((winner_eq_none_iff b).mp hw)]
  simp [he]

/-! ## Immediate wins and forced blocks -/

theorem score_bounds_no_winner (fuel : Nat) (b : Board) (t : Bool) (d : Int)
    (hw : b.winner = none) (hd : 0 ≤ d) (hde : d + emptyCount b ≤ 9)
    (hfuel : emptyCount b < fuel) :
    -10 + d + 1 ≤ score fuel b t d ∧ score fuel b t d ≤ 10 - d - 1 := by
  cases fuel with
  | zero => omega
  | succ fuel =>
    by_cases hf : b.is_full = true
    · rw [score_full fuel b t d hw hf]; omega
    · obtain ⟨rc0, he0⟩ := (not_full_iff b).mp hf
      have hw1 : wrapInt (d + 1) = d + 1 := wrapInt_of_small _ (by omega) (by omega)
      have hch : ∀ (p : Player), p ≠ Player.None → ∀ (t' : Bool) (rc : Fin 3 × Fin 3),
          b.get rc.1 rc.2 = Player.None →
          -10 + (d + 1) ≤ score fuel (b.set rc.1 rc.2 p) t' (d + 1) ∧
            score fuel (b.set rc.1 rc.2 p) t' (d + 1) ≤ 10 - (d + 1) := by
        intro p hp t' rc he
        have := emptyCount_set b rc.1 rc.2 p hp he
        exact score_bounds _ _ _ _ (by omega) (by omega) (by omega)
      cases t with
      | true =>
        rw [score_max fuel b d hw hf, hw1]
        obtain ⟨_, h2, h3⟩ := foldl_pickStep_max b
          (fun rc => score fuel (b.set rc.1 rc.2 Player.Computer) false (d + 1)) allCells INT_MIN
        have hlow := h2 rc0 (mem_allCells rc0) he0
        have hb0 := hch Player.Computer (by decide) false rc0 he0
        simp only at hlow
        rcases h3 with h3 | ⟨rc, _, he, h3⟩
        · rw [h3] at hlow
          unfold INT_MIN at hlow
          omega
        · have hb := hch Player.Computer (by decide) false rc he
          rw [h3]
          rw [h3] at hlow
          omega
      | false =>
        rw [score_min fuel b d hw hf, hw1]
        obtain ⟨_, h2, h3⟩ := foldl_pickStep_min b
          (fun rc => score fuel (b.set rc.1 rc.2 Player.Human) true (d + 1)) allCells INT_MAX
        have hup := h2 rc0 (mem_allCells rc0) he0
        have hb0 := hch Player.Human (by decide) true rc0 he0
        simp only at hup
        rcases h3 with h3 | ⟨rc, _, he, h3⟩
        · rw [h3] at hup
          unfold INT_MAX at hup
          omega
        · have hb := hch Player.Human (by decide) true rc he
          rw [h3]
          rw [h3] at hup
          omega

theorem completesLine_empty (b : Board) (rc : Fin 3 × Fin 3) (p : Player)
    (h : completesLine b rc p = true) : b.get rc.1 rc.2 = Player.None := by
  unfold completesLine at h
  simp only [Bool.and_eq_true, decide_eq_true_eq] at h
  exact h.1

theorem moveValue_of_win (fuel : Nat) (b : Board) (rc : Fin 3 × Fin 3)
    (hw : b.winner = none) (hfuel : emptyCount b ≤ fuel)
    (h : completesLine b rc Player.Computer = true) :
    score fuel (b.set rc.1 rc.2 Player.Computer) false 0 = 10 := by
  have he := completesLine_empty b rc _ h
  have hpos : 0 < emptyCount b := (emptyCount_pos_iff b).mpr ⟨rc, he⟩
  obtain ⟨n, rfl⟩ : ∃ n, fuel = n + 1 := ⟨fuel - 1, by omega⟩
  have hwin : (b.set rc.1 rc.2 Player.Computer).winner = some Player.Computer := by
    rw [winner_set b rc _ hw (by decide) he, if_pos h]
  rw [score_computer_win n _ false 0 (by omega) hwin]
  rfl

theorem moveValue_of_no_win (fuel : Nat) (b : Board) (rc : Fin 3 × Fin 3)
    (hw : b.winner = none) (hfuel : emptyCount b ≤ fuel)
    (he : b.get rc.1 rc.2 = Player.None)
    (h : completesLine b rc Player.Computer = false) :
    score fuel (b.set rc.1 rc.2 Player.Computer) false 0 ≤ 9 := by
  have hwin : (b.set rc.1 rc.2 Player.Computer).winner = none := by
    rw [winner_set b rc _ hw (by decide) he, if_neg (by simp [h])]
  have h1 := emptyCount_set b rc.1 rc.2 Player.Computer (by decide) he
  have h2 := emptyCount_le_nine b
  have := score_bounds_no_winner fuel _ false 0 hwin (le_refl _) (by omega) (by omega)
  omega

theorem find_best_move_win_cell (fuel : Nat) (b : Board) (hw : b.winner = none)
    (hfuel : emptyCount b ≤ fuel)
    (hex : ∃ rc : Fin 3 × Fin 3, completesLine b rc Player.Computer = true) :
    ∃ rc : Fin 3 × Fin 3,
      find_best_move fuel b = some (⟨(rc.1.val : Int), (rc.2.val : Int)⟩, b) ∧
      completesLine b rc Player.Computer = true ∧
      (b.set rc.1 rc.2 Player.Computer).winner = some Player.Computer ∧
      ∀ rc' : Fin 3 × Fin 3, completesLine b rc' Player.Computer = true →
        rc = rc' ∨ rc.1 < rc'.1 ∨ (rc.1 = rc'.1 ∧ rc.2 < rc'.2) := by
  obtain ⟨w, hwc⟩ := hex
  have hew := completesLine_empty b w _ hwc
  have hpos : 0 < emptyCount b := (emptyCount_pos_iff b).mpr ⟨w, hew⟩
  obtain ⟨rc, hres, he, hall⟩ := find_best_move_spec fuel b hpos hfuel
  have hrc : completesLine b rc Player.Computer = true := by
    by_contra hn
    have h9 := moveValue_of_no_win fuel b rc hw hfuel he (by simpa using hn)
    have h10 := moveValue_of_win fuel b w hw hfuel hwc
    have := (hall w hew).1
    omega
  refine ⟨rc, hres, hrc, ?_, ?_⟩
  · rw [winner_set b rc _ hw (by decide) he, if_pos hrc]
  · intro rc' hrc'
    have he' := completesLine_empty b rc' _ hrc'
    apply (hall rc' he').2
    rw [moveValue_of_win fuel b rc' hw hfuel hrc', moveValue_of_win fuel b rc hw hfuel hrc]

/-- C3: on a board with no winner where some empty cell would complete a line of three
computer marks, `find_best_move` returns such a cell, and the first one in row-major scan
order, whatever the other empty cells lead to. -/
theorem find_best_move_takes_win (fuel : Nat) (b : Board) (hw : b.winner = none)
    (hfuel : emptyCount b ≤ fuel)
    (hex : ∃ rc : Fin 3 × Fin 3, completesLine b rc Player.Computer = true) :
    ∃ rc : Fin 3 × Fin 3,
      find_best_move fuel b = some (⟨(rc.1.val : Int), (rc.2.val : Int)⟩, b) ∧
      completesLine b rc Player.Computer = true ∧
      (b.set rc.1 rc.2 Player.Computer).winner = some Player.Computer ∧
      ∀ rc' : Fin 3 × Fin 3, completesLine b rc' Player.Computer = true →
        rc = rc' ∨ rc.1 < rc'.1 ∨ (rc.1 = rc'.1 ∧ rc.2 < rc'.2) :=
  find_best_move_win_cell fuel b hw hfuel hex

theorem completesLine_iff (b : Board) (rc : Fin 3 × Fin 3) (p : Player) :
    completesLine b rc p = true ↔
      b.get rc.1 rc.2 = Player.None ∧
      ∃ l ∈ lines, (l.1 = rc ∨ l.2.1 = rc ∨ l.2.2 = rc) ∧
        (l.1 = rc ∨ b.get l.1.1 l.1.2 = p) ∧ (l.2.1 = rc ∨ b.get l.2.1.1 l.2.1.2 = p) ∧
          (l.2.2 = rc ∨ b.get l.2.2.1 l.2.2.2 = p) := by
  unfold completesLine lineHas
  simp only [Bool.and_eq_true, decide_eq_true_eq, List.any_eq_true]

theorem completesLine_set_other (b : Board) (x y : Fin 3 × Fin 3) (p q : Player)
    (hp : p ≠ Player.None) (hq : q ≠ p) (hxy : x ≠ y) (hy : b.get y.1 y.2 = Player.None) :
    completesLine (b.set y.1 y.2 q) x p = true ↔ completesLine b x p = true := by
  have hcell : ∀ c : Fin 3 × Fin 3,
      (c = x ∨ (b.set y.1 y.2 q).get c.1 c.2 = p) ↔ (c = x ∨ b.get c.1 c.2 = p) := by
    intro c
    rw [get_set_pair]
    by_cases hc : c = y
    · subst hc
      rw [if_pos rfl, hy]
      constructor
      · rintro (h | h)
        · exact Or.inl h
        · exact absurd h hq
      · rintro (h | h)
        · exact Or.inl h
        · exact absurd h.symm hp
    · rw [if_neg hc]
  rw [completesLine_iff, completesLine_iff, get_set_pair, if_neg hxy]
  simp only [hcell]

theorem find_best_move_must_block (fuel : Nat) (b : Board) (x : Fin 3 × Fin 3)
    (hw : b.winner = none) (hfuel : emptyCount b ≤ fuel)
    (hnc : ∀ rc : Fin 3 × Fin 3, completesLine b rc Player.Computer = false)
    (hx : completesLine b x Player.Human = true)
    (huniq : ∀ rc : Fin 3 × Fin 3, completesLine b rc Player.Human = true → rc = x) :
    (∀ y : Fin 3 × Fin 3, y ≠ x → b.get y.1 y.2 = Player.None →
      score fuel (b.set y.1 y.2 Player.Computer) false 0 ≤ -9) ∧
    -8 ≤ score fuel (b.set x.1 x.2 Player.Computer) false 0 := by
  have hex := completesLine_empty b x _ hx
  have hpos : 0 < emptyCount b := (emptyCount_pos_iff b).mpr ⟨x, hex⟩
  have h9 := emptyCount_le_nine b
  obtain ⟨n, rfl⟩ : ∃ n, fuel = n + 1 := ⟨fuel - 1, by omega⟩
  have hone : wrapInt (0 + 1) = 1 := by decide
  constructor
  · intro y hyx hey
    have hc1 := emptyCount_set b y.1 y.2 Player.Computer (by decide) hey
    have hw1 : (b.set y.1 y.2 Player.Computer).winner = none := by
      rw [winner_set b y _ hw (by decide) hey, if_neg (by simp [hnc y])]
    have hex1 : (b.set y.1 y.2 Player.Computer).get x.1 x.2 = Player.None := by
      rw [get_set_pair, if_neg (Ne.symm hyx), hex]
    have hnf : ¬ (b.set y.1 y.2 Player.Computer).is_full = true :=
      (not_full_iff _).mpr ⟨x, hex1⟩
    have hc2 := emptyCount_set _ x.1 x.2 Player.Human (by decide) hex1
    obtain ⟨m, rfl⟩ : ∃ m, n = m + 1 := ⟨n - 1, by omega⟩
    rw [score_min _ _ 0 hw1 hnf, hone]
    obtain ⟨_, h2, _⟩ := foldl_pickStep_min (b.set y.1 y.2 Player.Computer)
      (fun rc => score (m + 1) ((b.set y.1 y.2 Player.Computer).set rc.1 rc.2 Player.Human) true 1)
      allCells INT_MAX
    have hle := h2 x (mem_allCells x) hex1
    have hwin : ((b.set y.1 y.2 Player.Computer).set x.1 x.2 Player.Human).winner
        = some Player.Human := by
      rw [winner_set _ x _ hw1 (by decide) hex1, if_pos]
      exact (completesLine_set_other b x y _ _ (by decide) (by decide) (Ne.symm hyx) hey).mpr hx
    simp only at hle
    rw [score_human_win m _ true 1 (by omega) hwin] at hle
    omega
  · have hc1 := emptyCount_set b x.1 x.2 Player.Computer (by decide) hex
    have hw2 : (b.set x.1 x.2 Player.Computer).winner = none := by
      rw [winner_set b x _ hw (by decide) hex, if_neg (by simp [hnc x])]
    by_cases hf : (b.set x.1 x.2 Player.Computer).is_full = true
    · rw [score_full n _ false 0 hw2 hf]; omega
    · rw [score_min _ _ 0 hw2 hf, hone]
      obtain ⟨_, _, h3⟩ := foldl_pickStep_min (b.set x.1 x.2 Player.Computer)
        (fun rc => score n ((b.set x.1 x.2 Player.Computer).set rc.1 rc.2 Player.Human) true 1)
        allCells INT_MAX
      rcases h3 with h3 | ⟨h, _, heh, h3⟩
      · rw [h3]; unfold INT_MAX; omega
      · rw [h3]
        have hhx : h ≠ x := by
          intro hh
          subst hh
          rw [get_set_pair, if_pos rfl] at heh
          exact absurd heh (by decide)
        have hehb : b.get h.1 h.2 = Player.None := by
          rw [get_set_pair, if_neg hhx] at heh
          exact heh
        have hno : completesLine (b.set x.1 x.2 Player.Computer) h Player.Human = false := by
          by_contra hyes
          have hyes' : completesLine (b.set x.1 x.2 Player.Computer) h Player.Human = true := by
            simpa using hyes
          exact hhx (huniq h
            ((completesLine_set_other b h x _ _ (by decide) (by decide) hhx hex).mp hyes'))
        have hw3 : ((b.set x.1 x.2 Player.Computer).set h.1 h.2 Player.Human).winner = none := by
          rw [winner_set _ h _ hw2 (by decide) heh, if_neg (by simp [hno])]
        have hc2 := emptyCount_set _ h.1 h.2 Player.Human (by decide) heh
        have := score_bounds_no_winner n _ true 1 hw3 (by omega) (by omega) (by omega)
        omega

theorem find_best_move_block_cell (fuel : Nat) (b : Board) (x : Fin 3 × Fin 3)
    (hw : b.winner = none) (hfuel : emptyCount b ≤ fuel)
    (hnc : ∀ rc : Fin 3 × Fin 3, completesLine b rc Player.Computer = false)
    (hx : completesLine b x Player.Human = true)
    (huniq : ∀ rc : Fin 3 × Fin 3, completesLine b rc Player.Human = true → rc = x) :
    find_best_move fuel b = some (⟨(x.1.val : Int), (x.2.val : Int)⟩, b) := by
  have hex := completesLine_empty b x _ hx
  have hpos : 0 < emptyCount b := (emptyCount_pos_iff b).mpr ⟨x, hex⟩
  obtain ⟨rc, hres, he, hall⟩ := find_best_move_spec fuel b hpos hfuel
  obtain ⟨hothers, hblock⟩ := find_best_move_must_block fuel b x hw hfuel hnc hx huniq
  have hrc : rc = x := by
    by_contra hne
    have h1 := hothers rc hne he
    have h2 := (hall x hex).1
    omega
  rw [hres, hrc]
  rfl

/-- C4: on a board with no winner where no empty cell would complete a computer line and
exactly one empty cell would complete a human line, `find_best_move` returns that one
blocking cell. -/
theorem find_best_move_blocks (fuel : Nat) (b : Board) (x : Fin 3 × Fin 3)
    (hw : b.winner = none) (hfuel : emptyCount b ≤ fuel)
    (hnc : ∀ rc : Fin 3 × Fin 3, completesLine b rc Player.Computer = false)
    (hx : completesLine b x Player.Human = true)
    (huniq : ∀ rc : Fin 3 × Fin 3, completesLine b rc Player.Human = true → rc = x) :
    find_best_move fuel b = some (⟨(x.1.val : Int), (x.2.val : Int)⟩, b) :=
  find_best_move_block_cell fuel b x hw hfuel hnc hx huniq

/-! ## The scenarios of the specification -/

/-- The forced-win scenario of C3: with computer marks at `(0,0)` and `(0,1)`, `(0,2)`
empty and one human mark on any cell outside row 0, `find_best_move` returns `(0,2)`. -/
theorem find_best_move_takes_win_witness :
    find_best_move 9 (winBoard (1, 0)) = some (⟨0, 2⟩, winBoard (1, 0)) ∧
    find_best_move 9 (winBoard (1, 1)) = some (⟨0, 2⟩, winBoard (1, 1)) ∧
    find_best_move 9 (winBoard (1, 2)) = some (⟨0, 2⟩, winBoard (1, 2)) ∧
    find_best_move 9 (winBoard (2, 0)) = some (⟨0, 2⟩, winBoard (2, 0)) ∧
    find_best_move 9 (winBoard (2, 1)) = some (⟨0, 2⟩, winBoard (2, 1)) ∧
    find_best_move 9 (winBoard (2, 2)) = some (⟨0, 2⟩, winBoard (2, 2)) := by
  have key : ∀ h : Fin 3 × Fin 3, (winBoard h).winner = none →
      completesLine (winBoard h) (0, 2) Player.Computer = true →
      (∀ rc : Fin 3 × Fin 3, completesLine (winBoard h) rc Player.Computer = true → rc = (0, 2)) →
      find_best_move 9 (winBoard h) = some (⟨0, 2⟩, winBoard h) := by
    intro h hw hc honly
    obtain ⟨rc, hres, hrc, _, _⟩ :=
      find_best_move_takes_win 9 (winBoard h) hw (emptyCount_le_nine _) ⟨(0, 2), hc⟩
    rw [hres, honly rc hrc]
    rfl
  exact ⟨key _ (by decide) (by decide) (by decide), key _ (by decide) (by decide) (by decide),
    key _ (by decide) (by decide) (by decide), key _ (by decide) (by decide) (by decide),
    key _ (by decide) (by decide) (by decide), key _ (by decide) (by decide) (by decide)⟩

/-- The block scenario of C4: with human marks at `(1,0)` and `(1,1)` only,
`find_best_move` returns `(1,2)`. -/
theorem find_best_move_blocks_witness :
    find_best_move 9 blockBoard = some (⟨1, 2⟩, blockBoard) :=
  find_best_move_blocks 9 blockBoard (1, 2) (by decide) (by decide) (by decide) (by decide)
    (by decide)

/-- An instance of C5: the computer holds the main diagonal; at depth 3 the score is 7. -/
theorem minimax_win_score_witness :
    diagonalBoard.winner = some Player.Computer ∧
      minimax 1 diagonalBoard true 3 = some (7, diagonalBoard) :=
  ⟨by decide,
    ((minimax_win_score diagonalBoard Player.Computer true 3 (by decide) (by decide)).2.1 rfl).1 0⟩

/-- An instance of C2, on a board with two empty cells: `(1,2)`, after which the human
wins at once, is worth `-9`, and `(2,0)`, which leads to a draw, is worth `0`; the later cell
is returned. -/
theorem find_best_move_first_greatest_witness :
    (0 < emptyCount lateBoard ∧ emptyCount lateBoard ≤ 2 ∧
    ∃ (rc : Fin 3 × Fin 3) (v : Int),
      find_best_move 2 lateBoard = some (⟨(rc.1.val : Int), (rc.2.val : Int)⟩, lateBoard) ∧
      lateBoard.get rc.1 rc.2 = Player.None ∧ moveValue 2 lateBoard rc = some v ∧
      ∀ rc' : Fin 3 × Fin 3, lateBoard.get rc'.1 rc'.2 = Player.None →
        ∃ v', moveValue 2 lateBoard rc' = some v' ∧ v' ≤ v ∧
          (v' = v → rc = rc' ∨ rc.1 < rc'.1 ∨ (rc.1 = rc'.1 ∧ rc.2 < rc'.2))) ∧
    find_best_move 2 lateBoard = some (⟨2, 0⟩, lateBoard) ∧
    moveValue 2 lateBoard (1, 2) = some (-9) ∧ moveValue 2 lateBoard (2, 0) = some 0 :=
  ⟨⟨by decide, by decide, find_best_move_first_greatest 2 lateBoard (by decide) (by decide)⟩,
    by decide, by decide, by decide⟩

/-- An instance of C7, on the board of the block scenario. -/
theorem find_best_move_restores_board_witness :
    0 < emptyCount blockBoard ∧ emptyCount blockBoard ≤ 7 ∧
    ∃ (mv : Move) (b' : Board), find_best_move 7 blockBoard = some (mv, b') ∧
      b' = blockBoard ∧ (∀ r c, b'.get r c = blockBoard.get r c) ∧
      0 ≤ mv.row ∧ mv.row ≤ 2 ∧ 0 ≤ mv.col ∧ mv.col ≤ 2 ∧
      blockBoard.cell mv.row mv.col = some Player.None ∧
      blockBoard.is_empty mv.row mv.col = some true :=
  ⟨by decide, by decide, find_best_move_restores_board 7 blockBoard (by decide) (by decide)⟩

/-- An instance of C8, on a board with two empty cells: the computer's mark goes to
`(2,0)`. -/
theorem computer_turn_changes_one_cell_witness :
    (0 < emptyCount lateBoard ∧ emptyCount lateBoard ≤ 3 ∧
    ∃ (rc : Fin 3 × Fin 3) (b' : Board),
      find_best_move 3 lateBoard = some (⟨(rc.1.val : Int), (rc.2.val : Int)⟩, lateBoard) ∧
      lateBoard.place (rc.1.val : Int) (rc.2.val : Int) Player.Computer = some (true, b') ∧
      computer_turn 3 lateBoard = some b' ∧
      lateBoard.get rc.1 rc.2 = Player.None ∧ b'.get rc.1 rc.2 = Player.Computer ∧
      ∀ r c, (r, c) ≠ rc → b'.get r c = lateBoard.get r c) ∧
    computer_turn 3 lateBoard = some (lateBoard.set 2 0 Player.Computer) :=
  ⟨⟨by decide, by decide, computer_turn_changes_one_cell 3 lateBoard (by decide) (by decide)⟩,
    by decide⟩

/-- An instance of C6: a search from a board with two empty cells returns, and the board is
the one it started from. -/
theorem minimax_restores_board_witness :
    emptyCount lateBoard < 3 ∧ ∃ v, minimax 3 lateBoard true 0 = some (v, lateBoard) :=
  ⟨by decide, (minimax_restores_board 3 lateBoard true 0).2 (by decide)⟩

/-- An instance of C9, on a board no game reaches: row 0 holds three computer marks and
row 1 three human marks; row 0 is checked first, so `winner()` is the computer. -/
theorem winner_first_complete_line_witness :
    twoRowsBoard.winner = some Player.Computer :=
  (winner_first_complete_line twoRowsBoard).2.1.trans (by decide)

/-- Instances of C10 on the board of the block scenario: out of range, occupied, empty. -/
theorem place_spec_witness :
    blockBoard.place 3 0 Player.Computer = some (false, blockBoard) ∧
    blockBoard.place 1 0 Player.Computer = some (false, blockBoard) ∧
    ∃ b', blockBoard.place 0 2 Player.Computer = some (true, b') ∧
      b'.cell 0 2 = some Player.Computer ∧
      ∀ r' c' : Int, (r' ≠ 0 ∨ c' ≠ 2) → b'.cell r' c' = blockBoard.cell r' c' :=
  ⟨((place_spec blockBoard 3 0 Player.Computer).1 (by decide)).2,
    (place_spec blockBoard 1 0 Player.Computer).2.1 (by decide) (by decide),
    (place_spec blockBoard 0 2 Player.Computer).2.2 (by decide) (by decide)⟩

/-! ## The computer never loses: the game value, without scores -/

theorem sameMark_eq_threeEqual (x y z : Player) : sameMark x y z = threeEqual x y z := by
  cases x <;> cases y <;> cases z <;> rfl

theorem isNone_eq (p : Player) : p.isNone = decide (p = Player.None) := by
  cases p <;> rfl

theorem isComputer_eq (p : Player) : p.isComputer = decide (p = Player.Computer) := by
  cases p <;> rfl

theorem is_full_unfold (b : Board) :
    b.is_full =
      !((b.get 0 0).isNone || (b.get 0 1).isNone || (b.get 0 2).isNone || (b.get 1 0).isNone ||
        (b.get 1 1).isNone || (b.get 1 2).isNone || (b.get 2 0).isNone || (b.get 2 1).isNone ||
        (b.get 2 2).isNone) := by
  simp only [Board.is_full, finRange_three, List.all_cons, List.all_nil, isNone_eq]
  simp [Bool.and_assoc]

theorem drawCheck_eq_holdsDraw (fuel : Nat) (b : Board) (t : Bool) :
    drawCheck fuel t (b.get 0 0) (b.get 0 1) (b.get 0 2) (b.get 1 0) (b.get 1 1) (b.get 1 2)
      (b.get 2 0) (b.get 2 1) (b.get 2 2) = holdsDraw fuel b t := by
  induction fuel generalizing b t with
  | zero => rfl
  | succ n ih =>
    rw [drawCheck, holdsDraw, winner_unfold, is_full_unfold]
    simp only [sameMark_eq_threeEqual, isComputer_eq]
    by_cases h1 : threeEqual (b.get 0 0) (b.get 0 1) (b.get 0 2) = true
    · simp only [h1, if_true]
    rw [if_neg h1, if_neg h1]
    by_cases h2 : threeEqual (b.get 1 0) (b.get 1 1) (b.get 1 2) = true
    · simp only [h2, if_true]
    rw [if_neg h2, if_neg h2]
    by_cases h3 : threeEqual (b.get 2 0) (b.get 2 1) (b.get 2 2) = true
    · simp only [h3, if_true]
    rw [if_neg h3, if_neg h3]
    by_cases h4 : threeEqual (b.get 0 0) (b.get 1 0) (b.get 2 0) = true
    · simp only [h4, if_true]
    rw [if_neg h4, if_neg h4]
    by_cases h5 : threeEqual (b.get 0 1) (b.get 1 1) (b.get 2 1) = true
    · simp only [h5, if_true]
    rw [if_neg h5, if_neg h5]
    by_cases h6 : threeEqual (b.get 0 2) (b.get 1 2) (b.get 2 2) = true
    · simp only [h6, if_true]
    rw [if_neg h6, if_neg h6]
    by_cases h7 : threeEqual (b.get 0 0) (b.get 1 1) (b.get 2 2) = true
    · simp only [h7, if_true]
    rw [if_neg h7, if_neg h7]
    by_cases h8 : threeEqual (b.get 0 2) (b.get 1 1) (b.get 2 0) = true
    · simp only [h8, if_true]
    rw [if_neg h8, if_neg h8]
    simp only
    cases hfull : ((b.get 0 0).isNone || (b.get 0 1).isNone || (b.get 0 2).isNone ||
        (b.get 1 0).isNone || (b.get 1 1).isNone || (b.get 1 2).isNone || (b.get 2 0).isNone ||
        (b.get 2 1).isNone || (b.get 2 2).isNone) with
    | false => simp
    | true =>
      simp only [Bool.not_true, if_true, Bool.false_eq_true, if_false]
      cases t with
      | true =>
        simp only [if_true, priority, List.any_cons, List.any_nil, ← ih, isNone_eq]
        simp [Board.get_set, Bool.or_assoc]
      | false =>
        simp only [Bool.false_eq_true, if_false, allCells, List.all_cons, List.all_nil, ← ih,
          isNone_eq]
        simp [Board.get_set, Bool.and_assoc]

theorem drawCheck_empty :
    drawCheck 10 false Player.None Player.None Player.None Player.None Player.None Player.None
      Player.None Player.None Player.None = true := by decide!

theorem holdsDraw_empty : holdsDraw 10 Board.empty false = true := by
  rw [← drawCheck_eq_holdsDraw]
  exact drawCheck_empty

/-! ## More fuel changes no result -/

theorem minimaxCell_mono (s1 s2 : Board → Option (Int × Board)) (p : Player)
    (better : Int → Int → Bool) (r c : Int) (st y : Int × Board)
    (hs : ∀ b1 x, s1 b1 = some x → s2 b1 = some x)
    (h : minimaxCell s1 p better r c st = some y) :
    minimaxCell s2 p better r c st = some y := by
  unfold minimaxCell at h ⊢
  cases h1 : st.2.is_empty r c with
  | none => simp [h1] at h
  | some e =>
    cases e with
    | false => simpa [h1] using h
    | true =>
      simp only [h1] at h ⊢
      cases h2 : st.2.place r c p with
      | none => simp [h2] at h
      | some pb =>
        simp only [h2] at h ⊢
        cases h3 : s1 pb.2 with
        | none => simp [h3] at h
        | some x =>
          simp only [h3] at h
          simp only [hs _ _ h3]
          exact h

theorem foldlM_mono {σ α : Type} (f g : σ → α → Option σ) (l : List α)
    (hfg : ∀ s a y, f s a = some y → g s a = some y) (s y : σ)
    (h : l.foldlM f s = some y) : l.foldlM g s = some y := by
  induction l generalizing s with
  | nil => exact h
  | cons a l ih =>
    rw [List.foldlM_cons] at h ⊢
    cases h1 : f s a with
    | none => simp [h1] at h
    | some s1 =>
      rw [h1] at h
      rw [hfg _ _ _ h1]
      exact ih s1 h

theorem minimaxLoop_mono (s1 s2 : Board → Option (Int × Board)) (p : Player)
    (better : Int → Int → Bool) (st y : Int × Board)
    (hs : ∀ b1 x, s1 b1 = some x → s2 b1 = some x)
    (h : minimaxLoop s1 p better st = some y) :
    minimaxLoop s2 p better st = some y := by
  unfold minimaxLoop at h ⊢
  refine foldlM_mono _ _ _ ?_ _ _ h
  intro s r y' h'
  refine foldlM_mono _ _ _ ?_ _ _ h'
  intro s' c y'' h''
  exact minimaxCell_mono s1 s2 p better r c s' y'' hs h''

theorem minimax_mono_succ (fuel : Nat) (b : Board) (t : Bool) (d : Int) (x : Int × Board)
    (h : minimax fuel b t d = some x) : minimax (fuel + 1) b t d = some x := by
  induction fuel generalizing b t d x with
  | zero => simp [minimax] at h
  | succ n ih =>
    rw [minimax] at h ⊢
    split
    · rw [if_pos (by assumption)] at h; exact h
    · rw [if_neg (by assumption)] at h
      split
      · rw [if_pos (by assumption)] at h; exact h
      · rw [if_neg (by assumption)] at h
        split
        · rw [if_pos (by assumption)] at h
          exact minimaxLoop_mono _ _ _ _ _ _ (fun b1 x hx => ih _ _ _ _ hx) h
        · rw [if_neg (by assumption)] at h
          exact minimaxLoop_mono _ _ _ _ _ _ (fun b1 x hx => ih _ _ _ _ hx) h

theorem minimax_mono (fuel k : Nat) (b : Board) (t : Bool) (d : Int) (x : Int × Board)
    (h : minimax fuel b t d = some x) : minimax (fuel + k) b t d = some x := by
  induction k with
  | zero => exact h
  | succ k ih => exact minimax_mono_succ _ _ _ _ _ ih

theorem bestMoveCell_mono (fuel k : Nat) (r c : Int) (st y : Int × Move × Board)
    (h : bestMoveCell fuel r c st = some y) : bestMoveCell (fuel + k) r c st = some y := by
  unfold bestMoveCell at h ⊢
  cases h1 : st.2.2.is_empty r c with
  | none => simp [h1] at h
  | some e =>
    cases e with
    | false => simpa [h1] using h
    | true =>
      simp only [h1] at h ⊢
      cases h2 : st.2.2.place r c Player.Computer with
      | none => simp [h2] at h
      | some pb =>
        simp only [h2] at h ⊢
        cases h3 : minimax fuel pb.2 false 0 with
        | none => simp [h3] at h
        | some x =>
          simp only [h3] at h
          simp only [minimax_mono fuel k _ _ _ _ h3]
          exact h

theorem find_best_move_mono (fuel k : Nat) (b : Board) (x : Move × Board)
    (h : find_best_move fuel b = some x) : find_best_move (fuel + k) b = some x := by
  unfold find_best_move at h ⊢
  cases h1 : indices.foldlM
      (fun st r => indices.foldlM (fun st c => bestMoveCell fuel r c st) st)
      (INT_MIN, (⟨-1, -1⟩ : Move), b) with
  | none => simp [h1] at h
  | some y =>
    have h2 : indices.foldlM
        (fun st r => indices.foldlM (fun st c => bestMoveCell (fuel + k) r c st) st)
        (INT_MIN, (⟨-1, -1⟩ : Move), b) = some y := by
      refine foldlM_mono _ _ _ ?_ _ _ h1
      intro s r y' h'
      refine foldlM_mono _ _ _ ?_ _ _ h'
      intro s' c y'' h''
      exact bestMoveCell_mono fuel k r c s' y'' h''
    rw [h1] at h
    rw [h2]
    exact h

theorem computer_turn_mono (fuel k : Nat) (b b' : Board)
    (h : computer_turn fuel b = some b') : computer_turn (fuel + k) b = some b' := by
  unfold computer_turn at h ⊢
  cases h1 : find_best_move fuel b with
  | none => simp [h1] at h
  | some x =>
    rw [h1] at h
    rw [find_best_move_mono fuel k b x h1]
    exact h

/-! ## The sign of the score -/

theorem mem_priority (rc : Fin 3 × Fin 3) : rc ∈ priority := by
  obtain ⟨r, c⟩ := rc
  fin_cases r <;> fin_cases c <;> decide

theorem holdsDraw_of_winner (fuel : Nat) (b : Board) (t : Bool) (p : Player)
    (hw : b.winner = some p) : holdsDraw (fuel + 1) b t = decide (p = Player.Computer) := by
  rw [holdsDraw, hw]

theorem holdsDraw_full (fuel : Nat) (b : Board) (t : Bool) (hw : b.winner = none)
    (hf : b.is_full = true) : holdsDraw (fuel + 1) b t = true := by
  rw [holdsDraw, hw]
  simp [hf]

theorem holdsDraw_max (fuel : Nat) (b : Board) (hw : b.winner = none)
    (hf : ¬ b.is_full = true) :
    holdsDraw (fuel + 1) b true =
      priority.any fun rc =>
        decide (b.get rc.1 rc.2 = Player.None) &&
          holdsDraw fuel (b.set rc.1 rc.2 Player.Computer) false := by
  rw [holdsDraw, hw]
  simp only [if_neg hf, if_true]

theorem holdsDraw_min (fuel : Nat) (b : Board) (hw : b.winner = none)
    (hf : ¬ b.is_full = true) :
    holdsDraw (fuel + 1) b false =
      allCells.all fun rc =>
        decide (b.get rc.1 rc.2 ≠ Player.None) ||
          holdsDraw fuel (b.set rc.1 rc.2 Player.Human) true := by
  rw [holdsDraw, hw]
  simp only [if_neg hf, Bool.false_eq_true, if_false]

theorem holdsDraw_iff_score (n m : Nat) (b : Board) (t : Bool) (d : Int)
    (hn : emptyCount b < n) (hm : emptyCount b < m) (hd : 0 ≤ d)
    (hde : d + emptyCount b ≤ 9) :
    holdsDraw n b t = true ↔ 0 ≤ score m b t d := by
  induction n generalizing m b t d with
  | zero => omega
  | succ n ih =>
    obtain ⟨m, rfl⟩ : ∃ m', m = m' + 1 := ⟨m - 1, by omega⟩
    rcases winner_cases b with hw | hw | hw
    · rw [holdsDraw_of_winner n b t _ hw, score_computer_win m b t d ⟨hd, by omega⟩ hw]
      simp only [decide_True, true_iff]
      omega
    · rw [holdsDraw_of_winner n b t _ hw, score_human_win m b t d ⟨hd, by omega⟩ hw]
      simp only [show ¬ (Player.Human = Player.Computer) by decide, decide_False,
        Bool.false_eq_true, false_iff]
      omega
    · by_cases hf : b.is_full = true
      · rw [holdsDraw_full n b t hw hf, score_full m b t d hw hf]
        simp
      · have hw1 : wrapInt (d + 1) = d + 1 := wrapInt_of_small _ (by omega) (by omega)
        have hch : ∀ (p : Player), p ≠ Player.None → ∀ (t' : Bool) (rc : Fin 3 × Fin 3),
            b.get rc.1 rc.2 = Player.None →
            (holdsDraw n (b.set rc.1 rc.2 p) t' = true ↔
              0 ≤ score m (b.set rc.1 rc.2 p) t' (d + 1)) := by
          intro p hp t' rc he
          have := emptyCount_set b rc.1 rc.2 p hp he
          exact ih _ _ _ _ (by omega) (by omega) (by omega) (by omega)
        cases t with
        | true =>
          rw [holdsDraw_max n b hw hf, score_max m b d hw hf, hw1, List.any_eq_true]
          obtain ⟨_, h2, h3⟩ := foldl_pickStep_max b
            (fun rc => score m (b.set rc.1 rc.2 Player.Computer) false (d + 1)) allCells INT_MIN
          constructor
          · rintro ⟨rc, _, hrc⟩
            simp only [Bool.and_eq_true, decide_eq_true_eq] at hrc
            have h0 := (hch Player.Computer (by decide) false rc hrc.1).mp hrc.2
            have hle := h2 rc (mem_allCells rc) hrc.1
            simp only at hle
            omega
          · intro hF
            rcases h3 with h3 | ⟨rc, _, he, h3⟩
            · rw [h3] at hF
              unfold INT_MIN at hF
              omega
            · rw [h3] at hF
              refine ⟨rc, mem_priority rc, ?_⟩
              simp only [Bool.and_eq_true, decide_eq_true_eq]
              exact ⟨he, (hch Player.Computer (by decide) false rc he).mpr hF⟩
        | false =>
          rw [holdsDraw_min n b hw hf, score_min m b d hw hf, hw1, List.all_eq_true]
          obtain ⟨_, h2, h3⟩ := foldl_pickStep_min b
            (fun rc => score m (b.set rc.1 rc.2 Player.Human) true (d + 1)) allCells INT_MAX
          constructor
          · intro hall
            rcases h3 with h3 | ⟨rc, hmem, he, h3⟩
            · rw [h3]
              unfold INT_MAX
              omega
            · rw [h3]
              have := hall rc hmem
              simp only [Bool.or_eq_true, decide_eq_true_eq] at this
              rcases this with hne | hh
              · exact absurd he hne
              · exact (hch Player.Human (by decide) true rc he).mp hh
          · intro hF rc hmem
            simp only [Bool.or_eq_true, decide_eq_true_eq]
            by_cases he : b.get rc.1 rc.2 = Player.None
            · right
              apply (hch Player.Human (by decide) true rc he).mpr
              have hle := h2 rc hmem he
              simp only at hle
              omega
            · left
              exact he

/-! ## A round of play -/

theorem human_turn_spec (b b' : Board) (r c : Int) (h : human_turn b r c = some b') :
    ∃ rc : Fin 3 × Fin 3, r = (rc.1.val : Int) ∧ c = (rc.2.val : Int) ∧
      b.get rc.1 rc.2 = Player.None ∧ b' = b.set rc.1 rc.2 Player.Human := by
  unfold human_turn at h
  by_cases hr : r < 0 ∨ r ≥ 3 ∨ c < 0 ∨ c ≥ 3
  · rw [if_pos hr] at h
    cases h
  · rw [if_neg hr] at h
    obtain ⟨r', rfl⟩ : ∃ r' : Fin 3, r = (r'.val : Int) := ⟨⟨r.toNat, by omega⟩, by simp; omega⟩
    obtain ⟨c', rfl⟩ : ∃ c' : Fin 3, c = (c'.val : Int) := ⟨⟨c.toNat, by omega⟩, by simp; omega⟩
    rw [Board.is_empty_coe, Board.place_coe] at h
    by_cases he : b.get r' c' = Player.None
    · simp only [he, decide_True, if_true] at h
      cases h
      exact ⟨(r', c'), rfl, rfl, he, rfl⟩
    · simp [he] at h

theorem human_turn_of_empty (b : Board) (rc : Fin 3 × Fin 3)
    (he : b.get rc.1 rc.2 = Player.None) :
    human_turn b (rc.1.val : Int) (rc.2.val : Int) = some (b.set rc.1 rc.2 Player.Human) := by
  have h1 := rc.1.isLt
  have h2 := rc.2.isLt
  unfold human_turn
  rw [if_neg (by omega), Board.is_empty_coe, Board.place_coe]
  simp [he]

theorem computer_turn_spec (fuel : Nat) (b b' : Board) (hpos : 0 < emptyCount b)
    (h : computer_turn fuel b = some b') :
    ∃ rc : Fin 3 × Fin 3, b.get rc.1 rc.2 = Player.None ∧
      b' = b.set rc.1 rc.2 Player.Computer ∧
      find_best_move (fuel + 9) b = some (moveOf rc, b) ∧
      ∀ rc' : Fin 3 × Fin 3, b.get rc'.1 rc'.2 = Player.None →
        score (fuel + 9) (b.set rc'.1 rc'.2 Player.Computer) false 0 ≤
          score (fuel + 9) (b.set rc.1 rc.2 Player.Computer) false 0 := by
  have h9 := emptyCount_le_nine b
  have hmono := computer_turn_mono fuel 9 b b' h
  obtain ⟨rc, hres, he, hall⟩ := find_best_move_spec (fuel + 9) b hpos (by omega)
  refine ⟨rc, he, ?_, hres, fun rc' he' => (hall rc' he').1⟩
  unfold computer_turn at hmono
  rw [hres] at hmono
  simp only [moveOf, Board.place_coe, if_pos he] at hmono
  cases hmono
  rfl

theorem emptyCount_empty : emptyCount Board.empty = 9 := by decide

theorem reached_holdsDraw (b : Board) (cur : Player) (h : Reached b cur) :
    holdsDraw (emptyCount b + 1) b (decide (cur = Player.Computer)) = true := by
  induction h with
  | start =>
    rw [emptyCount_empty]
    exact holdsDraw_empty
  | @human b b' r c _ hw hf hturn ih =>
    obtain ⟨rc, _, _, he, rfl⟩ := human_turn_spec b b' r c hturn
    have hc := emptyCount_set b rc.1 rc.2 Player.Human (by decide) he
    have hnf : ¬ b.is_full = true := by simp [hf]
    simp only [show ¬ (Player.Human = Player.Computer) by decide, decide_False] at ih
    rw [holdsDraw_min _ b hw hnf, List.all_eq_true] at ih
    have := ih rc (mem_allCells rc)
    simp only [Bool.or_eq_true, decide_eq_true_eq] at this
    rcases this with hne | hh
    · exact absurd he hne
    · rw [hc]
      simpa using hh
  | @computer b b' fuel _ hw hf hturn ih =>
    have hnf : ¬ b.is_full = true := by simp [hf]
    obtain ⟨rc0, he0⟩ := (not_full_iff b).mp hnf
    have hpos : 0 < emptyCount b := (emptyCount_pos_iff b).mpr ⟨rc0, he0⟩
    have h9 := emptyCount_le_nine b
    obtain ⟨rc, he, rfl, _, hmax⟩ := computer_turn_spec fuel b b' hpos hturn
    simp only [decide_True] at ih
    rw [holdsDraw_max _ b hw hnf, List.any_eq_true] at ih
    obtain ⟨rc1, _, h1⟩ := ih
    simp only [Bool.and_eq_true, decide_eq_true_eq] at h1
    have hc1 := emptyCount_set b rc1.1 rc1.2 Player.Computer (by decide) h1.1
    have hc := emptyCount_set b rc.1 rc.2 Player.Computer (by decide) he
    have hs1 : 0 ≤ score (fuel + 9) (b.set rc1.1 rc1.2 Player.Computer) false 0 :=
      (holdsDraw_iff_score _ _ _ false 0 (by omega) (by omega) (le_refl _) (by omega)).mp h1.2
    have hs : 0 ≤ score (fuel + 9) (b.set rc.1 rc.2 Player.Computer) false 0 :=
      le_trans hs1 (hmax rc1 h1.1)
    have := (holdsDraw_iff_score (emptyCount (b.set rc.1 rc.2 Player.Computer) + 1) (fuel + 9)
      _ false 0 (by omega) (by omega) (le_refl _) (by omega)).mpr hs
    simpa using this

theorem holdsDraw_not_human (fuel : Nat) (b : Board) (t : Bool)
    (h : holdsDraw (fuel + 1) b t = true) : b.winner ≠ some Player.Human := by
  intro hw
  rw [holdsDraw_of_winner fuel b t _ hw] at h
  simp at h

/-- C1: in every round as `play_one_round` runs it (from the empty board, the human first
and placing on any empty cell in range, the computer placing on the cell `find_best_move`
returns, play going on only while there is no winner and the board is not full), no board
is reached on which `winner()` is the human's mark; a round that has ended was won by the
computer or is a draw on a full board. -/
theorem human_never_wins (b : Board) (cur : Player) (h : Reached b cur) :
    b.winner ≠ some Player.Human ∧
    ((b.winner ≠ none ∨ b.is_full = true) →
      b.winner = some Player.Computer ∨ (b.winner = none ∧ b.is_full = true)) := by
  have hw := holdsDraw_not_human _ b _ (reached_holdsDraw b cur h)
  refine ⟨hw, ?_⟩
  intro hend
  rcases winner_cases b with h1 | h1 | h1
  · exact Or.inl h1
  · exact absurd h1 hw
  · rcases hend with h2 | h2
    · exact absurd h1 h2
    · exact Or.inr ⟨h1, h2⟩

/-! ## A sample round -/

theorem computer_turn_of_find (fuel : Nat) (b : Board) (x : Fin 3 × Fin 3)
    (he : b.get x.1 x.2 = Player.None)
    (h : find_best_move fuel b = some (⟨(x.1.val : Int), (x.2.val : Int)⟩, b)) :
    computer_turn fuel b = some (b.set x.1 x.2 Player.Computer) := by
  unfold computer_turn
  rw [h]
  simp only [Board.place_coe, if_pos he]

theorem find_best_move_only_safe (fuel n : Nat) (b : Board) (x : Fin 3 × Fin 3)
    (hfuel : emptyCount b ≤ fuel) (hn : emptyCount b ≤ n)
    (hx : b.get x.1 x.2 = Player.None)
    (hsafe : holdsDraw n (b.set x.1 x.2 Player.Computer) false = true)
    (hothers : ∀ y : Fin 3 × Fin 3, y ≠ x → b.get y.1 y.2 = Player.None →
      holdsDraw n (b.set y.1 y.2 Player.Computer) false = false) :
    find_best_move fuel b = some (⟨(x.1.val : Int), (x.2.val : Int)⟩, b) := by
  have hpos : 0 < emptyCount b := (emptyCount_pos_iff b).mpr ⟨x, hx⟩
  have h9 := emptyCount_le_nine b
  obtain ⟨rc, hres, he, hall⟩ := find_best_move_spec fuel b hpos hfuel
  have hcx := emptyCount_set b x.1 x.2 Player.Computer (by decide) hx
  have hc := emptyCount_set b rc.1 rc.2 Player.Computer (by decide) he
  have hsx : 0 ≤ score fuel (b.set x.1 x.2 Player.Computer) false 0 :=
    (holdsDraw_iff_score n fuel _ false 0 (by omega) (by omega) (le_refl _) (by omega)).mp hsafe
  have hrc : rc = x := by
    by_contra hne
    have hno := hothers rc hne he
    have hs : 0 ≤ score fuel (b.set rc.1 rc.2 Player.Computer) false 0 :=
      le_trans hsx (hall x hx).1
    have := (holdsDraw_iff_score n fuel _ false 0 (by omega) (by omega) (le_refl _)
      (by omega)).mpr hs
    rw [hno] at this
    cases this
  rw [hres, hrc]
  rfl

theorem sampleBoard_centre_safe :
    drawCheck 8 false Player.Human Player.None Player.None Player.None Player.Computer
      Player.None Player.None Player.None Player.None = true := by decide!

theorem sampleBoard_others_lose :
    drawCheck 8 false Player.Human Player.Computer Player.None Player.None Player.None
        Player.None Player.None Player.None Player.None = false ∧
    drawCheck 8 false Player.Human Player.None Player.Computer Player.None Player.None
        Player.None Player.None Player.None Player.None = false ∧
    drawCheck 8 false Player.Human Player.None Player.None Player.Computer Player.None
        Player.None Player.None Player.None Player.None = false ∧
    drawCheck 8 false Player.Human Player.None Player.None Player.None Player.None
        Player.Computer Player.None Player.None Player.None = false ∧
    drawCheck 8 false Player.Human Player.None Player.None Player.None Player.None
        Player.None Player.Computer Player.None Player.None = false ∧
    drawCheck 8 false Player.Human Player.None Player.None Player.None Player.None
        Player.None Player.None Player.Computer Player.None = false ∧
    drawCheck 8 false Player.Human Player.None Player.None Player.None Player.None
        Player.None Player.None Player.None Player.Computer = false := by decide!

theorem sampleBoard_first_reply :
    find_best_move 9 (sampleBoard 1) = some (⟨1, 1⟩, sampleBoard 1) := by
  refine find_best_move_only_safe 9 8 (sampleBoard 1) (1, 1) (by decide) (by decide)
    (by decide) ?_ ?_
  · rw [← drawCheck_eq_holdsDraw]
    exact sampleBoard_centre_safe
  · obtain ⟨h1, h2, h3, h4, h5, h6, h7⟩ := sampleBoard_others_lose
    intro y hy he
    rw [← drawCheck_eq_holdsDraw]
    obtain ⟨r, c⟩ := y
    fin_cases r <;> fin_cases c
    · exact absurd he (by decide)
    · exact h1
    · exact h2
    · exact h3
    · exact absurd rfl hy
    · exact h4
    · exact h5
    · exact h6
    · exact h7

theorem sampleRound_reached : Reached (sampleBoard 6) Player.Human := by
  have s0 : Reached (sampleBoard 0) Player.Human := Reached.start
  have s1 : Reached (sampleBoard 1) Player.Computer :=
    Reached.human 0 0 s0 (by decide) (by decide) (by decide)
  have s2 : Reached (sampleBoard 2) Player.Human :=
    Reached.computer 9 s1 (by decide) (by decide)
      (computer_turn_of_find 9 (sampleBoard 1) (1, 1) (by decide) sampleBoard_first_reply)
  have s3 : Reached (sampleBoard 3) Player.Computer :=
    Reached.human 0 1 s2 (by decide) (by decide) (by decide)
  have s4 : Reached (sampleBoard 4) Player.Human :=
    Reached.computer 9 s3 (by decide) (by decide)
      (computer_turn_of_find 9 (sampleBoard 3) (0, 2) (by decide)
        (find_best_move_block_cell 9 (sampleBoard 3) (0, 2) (by decide) (by decide)
          (by decide) (by decide) (by decide)))
  have s5 : Reached (sampleBoard 5) Player.Computer :=
    Reached.human 1 0 s4 (by decide) (by decide) (by decide)
  have hwin : find_best_move 9 (sampleBoard 5) = some (⟨2, 0⟩, sampleBoard 5) := by
    obtain ⟨rc, hres, hrc, _, _⟩ := find_best_move_win_cell 9 (sampleBoard 5) (by decide)
      (by decide) ⟨(2, 0), by decide⟩
    have honly : ∀ rc : Fin 3 × Fin 3,
        completesLine (sampleBoard 5) rc Player.Computer = true → rc = (2, 0) := by decide
    rw [hres, honly rc hrc]
    rfl
  exact Reached.computer 9 s5 (by decide) (by decide)
    (computer_turn_of_find 9 (sampleBoard 5) (2, 0) (by decide) hwin)

/-- A round of C1 played out: the human opens at `(0,0)`, the computer answers `(1,1)`;
the human plays `(0,1)`, the computer blocks at `(0,2)`; the human plays `(1,0)`, the
computer completes the anti-diagonal at `(2,0)`.  The round ends won by the computer. -/
theorem human_never_wins_witness :
    Reached (sampleBoard 6) Player.Human ∧
    (sampleBoard 6).winner = some Player.Computer ∧
    (sampleBoard 6).winner ≠ some Player.Human :=
  ⟨sampleRound_reached, by decide,
    (human_never_wins (sampleBoard 6) Player.Human sampleRound_reached).1⟩


/-! ## `Board::unplace` -/

theorem int_eq_fin (r : Int) (h : 0 ≤ r ∧ r ≤ 2) : ∃ r' : Fin 3, r = (r'.val : Int) :=
  ⟨⟨r.toNat, by omega⟩, by simp; omega⟩

theorem cell_set_other (b : Board) (r c : Fin 3) (p : Player) (r' c' : Int)
    (hne : r' ≠ (r.val : Int) ∨ c' ≠ (c.val : Int)) :
    (b.set r c p).cell r' c' = b.cell r' c' := by
  unfold Board.cell
  by_cases hin : 0 ≤ r' ∧ r' < 3 ∧ 0 ≤ c' ∧ c' < 3
  · rw [dif_pos hin, dif_pos hin, Board.get_set, if_neg]
    rintro ⟨h1, h2⟩
    have h1' := congrArg (fun x : Fin 3 => (x.val : Int)) h1
    have h2' := congrArg (fun x : Fin 3 => (x.val : Int)) h2
    simp at h1' h2'
    omega
  · rw [dif_neg hin, dif_neg hin]

/-- C11: when `place(r, c, p)` succeeds on a cell in range (the cell is `None`), for any
mark `p`, an immediate `unplace(r, c)` gives back the board as it was before the `place`,
cell by cell. -/
theorem place_unplace_restores (b : Board) (r c : Int) (p : Player)
    (hin : 0 ≤ r ∧ r ≤ 2 ∧ 0 ≤ c ∧ c ≤ 2) (he : b.cell r c = some Player.None) :
    ∃ b1 b2, b.place r c p = some (true, b1) ∧ b1.unplace r c = some b2 ∧ b2 = b ∧
      ∀ r' c', b2.get r' c' = b.get r' c' := by
  obtain ⟨r', rfl⟩ := int_eq_fin r ⟨hin.1, hin.2.1⟩
  obtain ⟨c', rfl⟩ := int_eq_fin c ⟨hin.2.2.1, hin.2.2.2⟩
  rw [Board.cell_coe] at he
  have he' : b.get r' c' = Player.None := by simpa using he
  refine ⟨b.set r' c' p, b, ?_, ?_, rfl, fun _ _ => rfl⟩
  · rw [Board.place_coe, if_pos he']
  · rw [Board.unplace_coe, Board.set_set_none b r' c' p he']

/-- C12: `unplace(r, c)` on a cell in range sets that cell to `None` whatever it held and
leaves every other cell as it was; so after a `place(r, c, p)` that fails on an occupied
cell, `unplace(r, c)` does not restore the board: it erases the mark that was there. -/
theorem unplace_clears_cell (b : Board) (r c : Int)
    (hin : 0 ≤ r ∧ r ≤ 2 ∧ 0 ≤ c ∧ c ≤ 2) :
    ∃ b', b.unplace r c = some b' ∧ b'.cell r c = some Player.None ∧
      (∀ r' c' : Int, (r' ≠ r ∨ c' ≠ c) → b'.cell r' c' = b.cell r' c') ∧
      ∀ (p q : Player), b.cell r c = some q → q ≠ Player.None →
        b.place r c p = some (false, b) ∧ b' ≠ b := by
  obtain ⟨r', rfl⟩ := int_eq_fin r ⟨hin.1, hin.2.1⟩
  obtain ⟨c', rfl⟩ := int_eq_fin c ⟨hin.2.2.1, hin.2.2.2⟩
  refine ⟨b.set r' c' Player.None, Board.unplace_coe b r' c', ?_, ?_, ?_⟩
  · rw [Board.cell_coe, Board.get_set]; simp
  · intro r2 c2 hne
    exact cell_set_other b r' c' Player.None r2 c2 hne
  · intro p q hq hne
    rw [Board.cell_coe] at hq
    have hq' : b.get r' c' = q := by simpa using hq
    constructor
    · rw [Board.place_coe, if_neg (by rw [hq']; exact hne)]
    · intro heq
      have h1 : (b.set r' c' Player.None).get r' c' = Player.None := by
        rw [Board.get_set]; simp
      rw [heq, hq'] at h1
      exact hne h1

/-- An instance of C11: the computer's mark is placed at `(0,2)` of the board of the block
scenario and taken back. -/
theorem place_unplace_restores_witness :
    ∃ b1 b2, blockBoard.place 0 2 Player.Computer = some (true, b1) ∧
      b1.unplace 0 2 = some b2 ∧ b2 = blockBoard ∧
      ∀ r' c', b2.get r' c' = blockBoard.get r' c' :=
  place_unplace_restores blockBoard 0 2 Player.Computer (by decide) (by decide)

/-- An instance of C12: on the board of the block scenario `(1,0)` holds the human's mark;
`place` fails there and `unplace` erases the mark. -/
theorem unplace_clears_cell_witness :
    blockBoard.place 1 0 Player.Computer = some (false, blockBoard) ∧
    blockBoard.unplace 1 0 = some (boardOf [(1, 1, Player.Human)]) ∧
    boardOf [(1, 1, Player.Human)] ≠ blockBoard := by
  obtain ⟨b', h1, _, _, h4⟩ := unplace_clears_cell blockBoard 1 0 (by decide)
  have h5 := h4 Player.Computer Player.Human (by decide) (by decide)
  exact ⟨h5.1, by decide, by decide⟩


/-! ## Full boards and the range of the score -/

theorem emptyCount_of_full (b : Board) (hf : b.is_full = true) : emptyCount b = 0 := by
  by_contra h
  have hpos : 0 < emptyCount b := Nat.pos_of_ne_zero h
  obtain ⟨rc, he⟩ := (emptyCount_pos_iff b).mp hpos
  exact (is_full_iff b).mp hf rc.1 rc.2 he

theorem minimax_full (fuel : Nat) (b : Board) (t : Bool) (d : Int) (hw : b.winner = none)
    (hf : b.is_full = true) : minimax (fuel + 1) b t d = some (0, b) := by
  rw [minimax_eq_score (fuel + 1) b t d (by rw [emptyCount_of_full b hf]; omega),
    score_full fuel b t d hw hf]

/-- C14: on a board with all nine cells marked and no complete line, `is_full()` is true,
`winner()` is no winner, and `minimax` returns 0 for either turn flag and every depth; a
full board with a complete line is scored as a win, by the winner check that comes first:
`10 - d` or `-10 + d` at a depth `d` in `0..9`, never 0. -/
theorem full_board_draw (b : Board) (hfull : ∀ r c, b.get r c ≠ Player.None) :
    b.is_full = true ∧
    ((∀ l ∈ lines, lineComplete b l = false) →
      b.winner = none ∧ ∀ fuel t d, minimax (fuel + 1) b t d = some (0, b)) ∧
    (∀ l ∈ lines, lineComplete b l = true →
      ∃ p, b.winner = some p ∧ (p = Player.Computer ∨ p = Player.Human) ∧
        ∀ (fuel : Nat) (t : Bool) (d : Int), 0 ≤ d → d ≤ 9 →
          ∃ v, minimax (fuel + 1) b t d = some (v, b) ∧ v ≠ 0 ∧
            (p = Player.Computer → v = 10 - d) ∧ (p = Player.Human → v = -10 + d)) := by
  have hf : b.is_full = true := (is_full_iff b).mpr hfull
  refine ⟨hf, ?_, ?_⟩
  · intro hno
    have hw : b.winner = none := (winner_eq_none_iff b).mpr hno
    exact ⟨hw, fun fuel t d => minimax_full fuel b t d hw hf⟩
  · intro l hl hc
    rcases winner_cases b with hw | hw | hw
    · refine ⟨Player.Computer, hw, Or.inl rfl, ?_⟩
      intro fuel t d h0 h9
      exact ⟨10 - d, minimax_computer_win fuel b t d ⟨h0, h9⟩ hw, by omega, fun _ => rfl,
        fun h => by cases h⟩
    · refine ⟨Player.Human, hw, Or.inr rfl, ?_⟩
      intro fuel t d h0 h9
      exact ⟨-10 + d, minimax_human_win fuel b t d ⟨h0, h9⟩ hw, by omega,
        (fun h => by cases h), fun _ => rfl⟩
    · have := (winner_eq_none_iff b).mp hw l hl
      rw [hc] at this
      cases this

/-- Instances of C14: a drawn full board scores 0; a full board with complete lines of the
human scores `-10 + 9`. -/
theorem full_board_draw_witness :
    (drawBoard.is_full = true ∧ drawBoard.winner = none ∧
      minimax 1 drawBoard true 9 = some (0, drawBoard)) ∧
    (doubleLineBoard.is_full = true ∧ doubleLineBoard.winner = some Player.Human ∧
      minimax 1 doubleLineBoard true 9 = some (-1, doubleLineBoard)) := by
  obtain ⟨h1, h2, _⟩ := full_board_draw drawBoard ((is_full_iff _).mp (by decide))
  obtain ⟨h3, h4⟩ := h2 ((winner_eq_none_iff _).mp (by decide))
  refine ⟨⟨h1, h3, h4 0 true 9⟩, by decide, by decide, by decide⟩

/-- C19: at a depth `d ≥ 0` with `d` plus the number of empty cells at most 9, `minimax`
returns a value between -10 and 10, so never the sentinels `INT_MIN` and `INT_MAX` the
loops start from: a board with no winner that is not full has an empty cell for the loop
to try. -/
theorem minimax_value_bounds (fuel : Nat) (b : Board) (t : Bool) (d : Int)
    (hd : 0 ≤ d) (hde : d + emptyCount b ≤ 9) (hfuel : emptyCount b < fuel) :
    ∃ v, minimax fuel b t d = some (v, b) ∧ -10 ≤ v ∧ v ≤ 10 ∧ v ≠ INT_MIN ∧ v ≠ INT_MAX ∧
      (b.winner = none → b.is_full = false → ∃ rc : Fin 3 × Fin 3,
        b.get rc.1 rc.2 = Player.None) := by
  have hb := score_bounds fuel b t d hd hde hfuel
  refine ⟨score fuel b t d, minimax_eq_score fuel b t d hfuel, by omega, by omega, ?_, ?_, ?_⟩
  · unfold INT_MIN; omega
  · unfold INT_MAX; omega
  · intro _ hf
    exact (not_full_iff b).mp (by simp [hf])

/-- An instance of C19: seven plies deep, with two cells empty and the computer to move, the
search returns 0. -/
theorem minimax_value_bounds_witness :
    (∃ v, minimax 3 lateBoard true 7 = some (v, lateBoard) ∧ -10 ≤ v ∧ v ≤ 10 ∧
      v ≠ INT_MIN ∧ v ≠ INT_MAX ∧
      (lateBoard.winner = none → lateBoard.is_full = false → ∃ rc : Fin 3 × Fin 3,
        lateBoard.get rc.1 rc.2 = Player.None)) ∧
    minimax 3 lateBoard true 7 = some (0, lateBoard) :=
  ⟨minimax_value_bounds 3 lateBoard true 7 (by decide) (by decide) (by decide), by decide⟩

/-! ## `find_best_move` on a full board -/

/-- C20: on a full board `find_best_move` returns the move `(-1, -1)`, with no call of
`minimax` (any fuel will do), and leaves the board as it was; `place` rejects `(-1, -1)`
by its range check, where the grid has no cell to read, so `computer_turn` changes no
cell. -/
theorem find_best_move_full (fuel : Nat) (b : Board) (hfull : b.is_full = true) :
    find_best_move fuel b = some (⟨-1, -1⟩, b) ∧
    b.cell (-1) (-1) = none ∧
    b.place (-1) (-1) Player.Computer = some (false, b) ∧
    computer_turn fuel b = some b := by
  have hne : ∀ rc : Fin 3 × Fin 3, ¬ b.get rc.1 rc.2 = Player.None :=
    fun rc => (is_full_iff b).mp hfull rc.1 rc.2
  have hfold : ∀ (l : List (Fin 3 × Fin 3)) (st : Int × Move),
      l.foldl (bestStep b (fun _ => 0)) st = st := by
    intro l
    induction l with
    | nil => intro st; rfl
    | cons x l ih =>
      intro st
      rw [List.foldl_cons]
      have : bestStep b (fun _ => 0) st x = st := by
        unfold bestStep
        rw [if_neg (hne x)]
      rw [this]
      exact ih st
  have hfind : find_best_move fuel b = some (⟨-1, -1⟩, b) := by
    rw [find_best_move_eq_foldlM]
    have := foldlM_bestMoveCell_value fuel (fun _ => 0) b allCells
      (fun rc _ he => absurd he (hne rc)) (INT_MIN, (⟨-1, -1⟩ : Move))
    rw [this, hfold]
    rfl
  have hplace : b.place (-1) (-1) Player.Computer = some (false, b) := by
    unfold Board.place
    rw [if_pos (by omega)]
  refine ⟨hfind, ?_, hplace, ?_⟩
  · unfold Board.cell
    rw [dif_neg (by omega)]
  · unfold computer_turn
    rw [hfind]
    simp only [hplace]

/-- An instance of C20, on a drawn full board and with no fuel at all. -/
theorem find_best_move_full_witness :
    find_best_move 0 drawBoard = some (⟨-1, -1⟩, drawBoard) ∧
    drawBoard.cell (-1) (-1) = none ∧
    drawBoard.place (-1) (-1) Player.Computer = some (false, drawBoard) ∧
    computer_turn 0 drawBoard = some drawBoard :=
  find_best_move_full 0 drawBoard (by decide)


/-! ## One ply of `minimax` -/

theorem wrapInt_range (x : Int) : INT_MIN ≤ wrapInt x ∧ wrapInt x ≤ INT_MAX := by
  unfold wrapInt INT_MIN INT_MAX
  omega

theorem wrapInt_succ_wrap (d : Int) : wrapInt (wrapInt d + 1) = wrapInt (d + 1) := by
  unfold wrapInt
  omega

theorem wrapInt_mul_wrap (d k : Int) (hk : k = 1 ∨ k = -1) :
    wrapInt (wrapInt d * k) = wrapInt (d * k) := by
  rcases hk with rfl | rfl <;> (unfold wrapInt; omega)

theorem score_wrap (fuel : Nat) (b : Board) (t : Bool) (d : Int) :
    score fuel b t (wrapInt d) = score fuel b t d := by
  cases fuel with
  | zero => rfl
  | succ n =>
    rw [score, score, wrapInt_succ_wrap]
    have hk : wrapInt (wrapInt d * (if evaluate_board b > 0 then 1 else -1)) =
        wrapInt (d * (if evaluate_board b > 0 then 1 else -1)) := by
      apply wrapInt_mul_wrap
      split
      · exact Or.inl rfl
      · exact Or.inr rfl
    rw [hk]

theorem score_range (fuel : Nat) (b : Board) (t : Bool) (d : Int) :
    INT_MIN ≤ score fuel b t d ∧ score fuel b t d ≤ INT_MAX := by
  induction fuel generalizing b t d with
  | zero =>
    rw [score]
    unfold INT_MIN INT_MAX
    omega
  | succ n ih =>
    by_cases hdec : evaluate_board b = 10 ∨ evaluate_board b = -10
    · rw [score, if_pos hdec]
      exact wrapInt_range _
    · have hw := (not_decisive_iff b).mp hdec
      by_cases hf : b.is_full = true
      · rw [score_full n b t d hw hf]
        unfold INT_MIN INT_MAX
        omega
      · cases t with
        | true =>
          rw [score_max n b d hw hf]
          obtain ⟨_, _, h3⟩ := foldl_pickStep_max b
            (fun rc => score n (b.set rc.1 rc.2 Player.Computer) false (wrapInt (d + 1)))
            allCells INT_MIN
          rcases h3 with h3 | ⟨rc, _, _, h3⟩
          · rw [h3]; unfold INT_MIN INT_MAX; omega
          · rw [h3]; exact ih _ _ _
        | false =>
          rw [score_min n b d hw hf]
          obtain ⟨_, _, h3⟩ := foldl_pickStep_min b
            (fun rc => score n (b.set rc.1 rc.2 Player.Human) true (wrapInt (d + 1)))
            allCells INT_MAX
          rcases h3 with h3 | ⟨rc, _, _, h3⟩
          · rw [h3]; unfold INT_MIN INT_MAX; omega
          · rw [h3]; exact ih _ _ _

theorem minimax_child (fuel : Nat) (b : Board) (rc : Fin 3 × Fin 3) (p : Player) (t : Bool)
    (d : Int) (hp : p ≠ Player.None) (he : b.get rc.1 rc.2 = Player.None)
    (hfuel : emptyCount b ≤ fuel) :
    minimax fuel (b.set rc.1 rc.2 p) t (d + 1) =
      some (score fuel (b.set rc.1 rc.2 p) t (wrapInt (d + 1)), b.set rc.1 rc.2 p) := by
  have := emptyCount_set b rc.1 rc.2 p hp he
  rw [minimax_eq_score fuel _ t (d + 1) (by omega), score_wrap]

theorem minimax_max_ply (fuel : Nat) (b : Board) (d : Int) (hw : b.winner = none)
    (hf : b.is_full = false) (hfuel : emptyCount b ≤ fuel) :
    ∃ v, minimax (fuel + 1) b true d = some (v, b) ∧
      (∀ rc : Fin 3 × Fin 3, b.get rc.1 rc.2 = Player.None →
        ∃ v', minimax fuel (b.set rc.1 rc.2 Player.Computer) false (d + 1) =
          some (v', b.set rc.1 rc.2 Player.Computer) ∧ v' ≤ v) ∧
      ∃ rc : Fin 3 × Fin 3, b.get rc.1 rc.2 = Player.None ∧
        minimax fuel (b.set rc.1 rc.2 Player.Computer) false (d + 1) =
          some (v, b.set rc.1 rc.2 Player.Computer) := by
  have hnf : ¬ b.is_full = true := by simp [hf]
  obtain ⟨rc0, he0⟩ := (not_full_iff b).mp hnf
  refine ⟨score (fuel + 1) b true d, minimax_eq_score _ b true d (by omega), ?_, ?_⟩
  · intro rc he
    refine ⟨_, minimax_child fuel b rc _ false d (by decide) he hfuel, ?_⟩
    rw [score_max fuel b d hw hnf]
    exact (foldl_pickStep_max b _ allCells INT_MIN).2.1 rc (mem_allCells rc) he
  · rw [score_max fuel b d hw hnf]
    obtain ⟨_, h2, h3⟩ := foldl_pickStep_max b
      (fun rc => score fuel (b.set rc.1 rc.2 Player.Computer) false (wrapInt (d + 1)))
      allCells INT_MIN
    rcases h3 with h3 | ⟨rc, _, he, h3⟩
    · refine ⟨rc0, he0, ?_⟩
      rw [minimax_child fuel b rc0 _ false d (by decide) he0 hfuel]
      have hle := h2 rc0 (mem_allCells rc0) he0
      have hge := (score_range fuel (b.set rc0.1 rc0.2 Player.Computer) false
        (wrapInt (d + 1))).1
      rw [h3] at hle ⊢
      have : score fuel (b.set rc0.1 rc0.2 Player.Computer) false (wrapInt (d + 1)) = INT_MIN :=
        le_antisymm hle hge
      rw [this]
    · refine ⟨rc, he, ?_⟩
      rw [minimax_child fuel b rc _ false d (by decide) he hfuel, h3]

theorem minimax_min_ply (fuel : Nat) (b : Board) (d : Int) (hw : b.winner = none)
    (hf : b.is_full = false) (hfuel : emptyCount b ≤ fuel) :
    ∃ v, minimax (fuel + 1) b false d = some (v, b) ∧
      (∀ rc : Fin 3 × Fin 3, b.get rc.1 rc.2 = Player.None →
        ∃ v', minimax fuel (b.set rc.1 rc.2 Player.Human) true (d + 1) =
          some (v', b.set rc.1 rc.2 Player.Human) ∧ v ≤ v') ∧
      ∃ rc : Fin 3 × Fin 3, b.get rc.1 rc.2 = Player.None ∧
        minimax fuel (b.set rc.1 rc.2 Player.Human) true (d + 1) =
          some (v, b.set rc.1 rc.2 Player.Human) := by
  have hnf : ¬ b.is_full = true := by simp [hf]
  obtain ⟨rc0, he0⟩ := (not_full_iff b).mp hnf
  refine ⟨score (fuel + 1) b false d, minimax_eq_score _ b false d (by omega), ?_, ?_⟩
  · intro rc he
    refine ⟨_, minimax_child fuel b rc _ true d (by decide) he hfuel, ?_⟩
    rw [score_min fuel b d hw hnf]
    exact (foldl_pickStep_min b _ allCells INT_MAX).2.1 rc (mem_allCells rc) he
  · rw [score_min fuel b d hw hnf]
    obtain ⟨_, h2, h3⟩ := foldl_pickStep_min b
      (fun rc => score fuel (b.set rc.1 rc.2 Player.Human) true (wrapInt (d + 1)))
      allCells INT_MAX
    rcases h3 with h3 | ⟨rc, _, he, h3⟩
    · refine ⟨rc0, he0, ?_⟩
      rw [minimax_child fuel b rc0 _ true d (by decide) he0 hfuel]
      have hle := h2 rc0 (mem_allCells rc0) he0
      have hge := (score_range fuel (b.set rc0.1 rc0.2 Player.Human) true
        (wrapInt (d + 1))).2
      rw [h3] at hle ⊢
      have : score fuel (b.set rc0.1 rc0.2 Player.Human) true (wrapInt (d + 1)) = INT_MAX :=
        le_antisymm hge hle
      rw [this]
    · refine ⟨rc, he, ?_⟩
      rw [minimax_child fuel b rc _ true d (by decide) he hfuel, h3]

/-- C13: on a board with no winner that is not full, at every depth `d`, `minimax(true, d)`
returns the maximum over the empty cells of what `minimax(false, d + 1)` returns on the
board with the computer's mark placed in the cell (no cell gives more, and some cell gives
exactly that), and `minimax(false, d)` the minimum over the empty cells of what
`minimax(true, d + 1)` returns on the board with the human's mark placed in the cell. -/
theorem minimax_one_ply (fuel : Nat) (b : Board) (d : Int) (hw : b.winner = none)
    (hf : b.is_full = false) (hfuel : emptyCount b ≤ fuel) :
    (∃ v, minimax (fuel + 1) b true d = some (v, b) ∧
      (∀ rc : Fin 3 × Fin 3, b.get rc.1 rc.2 = Player.None →
        ∃ v', minimax fuel (b.set rc.1 rc.2 Player.Computer) false (d + 1) =
          some (v', b.set rc.1 rc.2 Player.Computer) ∧ v' ≤ v) ∧
      ∃ rc : Fin 3 × Fin 3, b.get rc.1 rc.2 = Player.None ∧
        minimax fuel (b.set rc.1 rc.2 Player.Computer) false (d + 1) =
          some (v, b.set rc.1 rc.2 Player.Computer)) ∧
    (∃ v, minimax (fuel + 1) b false d = some (v, b) ∧
      (∀ rc : Fin 3 × Fin 3, b.get rc.1 rc.2 = Player.None →
        ∃ v', minimax fuel (b.set rc.1 rc.2 Player.Human) true (d + 1) =
          some (v', b.set rc.1 rc.2 Player.Human) ∧ v ≤ v') ∧
      ∃ rc : Fin 3 × Fin 3, b.get rc.1 rc.2 = Player.None ∧
        minimax fuel (b.set rc.1 rc.2 Player.Human) true (d + 1) =
          some (v, b.set rc.1 rc.2 Player.Human)) :=
  ⟨minimax_max_ply fuel b d hw hf hfuel, minimax_min_ply fuel b d hw hf hfuel⟩

/-- An instance of C13, two plies from the end of a round: with the computer to move the
cell `(1,2)` is worth `-1` and the cell `(2,0)` is worth `0`, and the search returns `0`;
with the human to move it returns `-2`, the human winning at `(2,0)` one ply sooner. -/
theorem minimax_one_ply_witness :
    (lateBoard.winner = none ∧ lateBoard.is_full = false ∧ emptyCount lateBoard ≤ 2) ∧
    ((∃ v, minimax 3 lateBoard true 7 = some (v, lateBoard) ∧
      (∀ rc : Fin 3 × Fin 3, lateBoard.get rc.1 rc.2 = Player.None →
        ∃ v', minimax 2 (lateBoard.set rc.1 rc.2 Player.Computer) false (7 + 1) =
          some (v', lateBoard.set rc.1 rc.2 Player.Computer) ∧ v' ≤ v) ∧
      ∃ rc : Fin 3 × Fin 3, lateBoard.get rc.1 rc.2 = Player.None ∧
        minimax 2 (lateBoard.set rc.1 rc.2 Player.Computer) false (7 + 1) =
          some (v, lateBoard.set rc.1 rc.2 Player.Computer)) ∧
    (∃ v, minimax 3 lateBoard false 7 = some (v, lateBoard) ∧
      (∀ rc : Fin 3 × Fin 3, lateBoard.get rc.1 rc.2 = Player.None →
        ∃ v', minimax 2 (lateBoard.set rc.1 rc.2 Player.Human) true (7 + 1) =
          some (v', lateBoard.set rc.1 rc.2 Player.Human) ∧ v ≤ v') ∧
      ∃ rc : Fin 3 × Fin 3, lateBoard.get rc.1 rc.2 = Player.None ∧
        minimax 2 (lateBoard.set rc.1 rc.2 Player.Human) true (7 + 1) =
          some (v, lateBoard.set rc.1 rc.2 Player.Human))) ∧
    minimax 3 lateBoard true 7 = some (0, lateBoard) ∧
    minimax 2 (lateBoard.set 1 2 Player.Computer) false 8 =
      some (-1, lateBoard.set 1 2 Player.Computer) ∧
    minimax 2 (lateBoard.set 2 0 Player.Computer) false 8 =
      some (0, lateBoard.set 2 0 Player.Computer) ∧
    minimax 3 lateBoard false 7 = some (-2, lateBoard) :=
  ⟨⟨by decide, by decide, by decide⟩,
    minimax_one_ply 2 lateBoard 7 (by decide) (by decide) (by decide),
    by decide!, by decide!, by decide!, by decide!⟩

/-! ## Termination of `minimax` -/

theorem minimaxCell_congr (s1 s2 : Board → Option (Int × Board)) (p : Player)
    (better : Int → Int → Bool) (rc : Fin 3 × Fin 3) (best : Int) (b : Board)
    (hagree : b.get rc.1 rc.2 = Player.None →
      s2 (b.set rc.1 rc.2 p) = s1 (b.set rc.1 rc.2 p)) :
    minimaxCell s2 p better (rc.1.val : Int) (rc.2.val : Int) (best, b) =
      minimaxCell s1 p better (rc.1.val : Int) (rc.2.val : Int) (best, b) := by
  unfold minimaxCell
  simp only [Board.is_empty_coe, Board.place_coe]
  by_cases he : b.get rc.1 rc.2 = Player.None
  · simp only [he, decide_True, if_true, hagree he]
  · simp only [he, decide_False]

theorem foldlM_minimaxCell_congr (s1 s2 : Board → Option (Int × Board)) (p : Player)
    (better : Int → Int → Bool) (b : Board)
    (hs1 : ∀ b1 v b2, s1 b1 = some (v, b2) → b2 = b1)
    (hagree : ∀ rc : Fin 3 × Fin 3, b.get rc.1 rc.2 = Player.None →
      s2 (b.set rc.1 rc.2 p) = s1 (b.set rc.1 rc.2 p))
    (l : List (Fin 3 × Fin 3)) (best : Int) :
    l.foldlM (fun st rc => minimaxCell s2 p better (rc.1.val : Int) (rc.2.val : Int) st)
        (best, b) =
      l.foldlM (fun st rc => minimaxCell s1 p better (rc.1.val : Int) (rc.2.val : Int) st)
        (best, b) := by
  induction l generalizing best with
  | nil => rfl
  | cons rc l ih =>
    rw [List.foldlM_cons, List.foldlM_cons, minimaxCell_congr s1 s2 p better rc best b (hagree rc)]
    cases hc : minimaxCell s1 p better (rc.1.val : Int) (rc.2.val : Int) (best, b) with
    | none => rfl
    | some st1 =>
      obtain ⟨best1, b1⟩ := st1
      have hb : b1 = b := minimaxCell_frame s1 p better rc.1 rc.2 best b _ hs1 hc
      subst hb
      simp only [Option.some_bind, Option.bind_eq_bind]
      exact ih best1

theorem minimaxLoop_congr (s1 s2 : Board → Option (Int × Board)) (p : Player)
    (better : Int → Int → Bool) (b : Board) (best : Int)
    (hs1 : ∀ b1 v b2, s1 b1 = some (v, b2) → b2 = b1)
    (hagree : ∀ rc : Fin 3 × Fin 3, b.get rc.1 rc.2 = Player.None →
      s2 (b.set rc.1 rc.2 p) = s1 (b.set rc.1 rc.2 p)) :
    minimaxLoop s2 p better (best, b) = minimaxLoop s1 p better (best, b) := by
  rw [minimaxLoop_eq_foldlM, minimaxLoop_eq_foldlM]
  exact foldlM_minimaxCell_congr s1 s2 p better b hs1 hagree allCells best

theorem minimax_succ_max (fuel : Nat) (b : Board) (d : Int) (hw : b.winner = none)
    (hf : b.is_full = false) :
    minimax (fuel + 1) b true d =
      minimaxLoop (fun b1 => minimax fuel b1 false (wrapInt (d + 1))) Player.Computer
        (fun value best => decide (value > best)) (INT_MIN, b) := by
  rw [minimax]
  simp only [if_neg ((not_decisive_iff b).mpr hw), hf, Bool.false_eq_true, if_false, if_true]

theorem minimax_succ_min (fuel : Nat) (b : Board) (d : Int) (hw : b.winner = none)
    (hf : b.is_full = false) :
    minimax (fuel + 1) b false d =
      minimaxLoop (fun b1 => minimax fuel b1 true (wrapInt (d + 1))) Player.Human
        (fun value best => decide (value < best)) (INT_MAX, b) := by
  rw [minimax]
  simp only [if_neg ((not_decisive_iff b).mpr hw), hf, Bool.false_eq_true, if_false]

/-- C17: `minimax` is total: for every board, turn flag and depth it returns once the fuel,
which bounds the nesting of the recursion, exceeds the number of empty cells, and ten
levels always do, the board having at most nine empty cells; every recursive call runs on
a board with exactly one empty cell fewer: making the recursive call fail on any other
board changes nothing. -/
theorem minimax_total (b : Board) (t : Bool) (d : Int) :
    (∀ fuel, emptyCount b < fuel → ∃ v, minimax fuel b t d = some (v, b)) ∧
    (∃ v, minimax (emptyCount b + 1) b t d = some (v, b)) ∧
    emptyCount b ≤ 9 ∧
    (∃ v, minimax 10 b t d = some (v, b)) ∧
    (∀ fuel, b.winner = none → b.is_full = false →
      minimax (fuel + 1) b true d =
        minimaxLoop
          (fun b1 =>
            if emptyCount b1 + 1 = emptyCount b then minimax fuel b1 false (wrapInt (d + 1))
            else none)
          Player.Computer (fun value best => decide (value > best)) (INT_MIN, b) ∧
      minimax (fuel + 1) b false d =
        minimaxLoop
          (fun b1 =>
            if emptyCount b1 + 1 = emptyCount b then minimax fuel b1 true (wrapInt (d + 1))
            else none)
          Player.Human (fun value best => decide (value < best)) (INT_MAX, b)) := by
  have h9 := emptyCount_le_nine b
  refine ⟨fun fuel h => ⟨_, minimax_eq_score fuel b t d h⟩,
    ⟨_, minimax_eq_score _ b t d (by omega)⟩, h9,
    ⟨_, minimax_eq_score 10 b t d (by omega)⟩, ?_⟩
  intro fuel hw hf
  constructor
  · rw [minimax_succ_max fuel b d hw hf]
    symm
    apply minimaxLoop_congr
    · intro b1 v b2 h
      exact minimax_frame _ _ _ _ _ _ h
    · intro rc he
      rw [if_pos (emptyCount_set b rc.1 rc.2 Player.Computer (by decide) he)]
  · rw [minimax_succ_min fuel b d hw hf]
    symm
    apply minimaxLoop_congr
    · intro b1 v b2 h
      exact minimax_frame _ _ _ _ _ _ h
    · intro rc he
      rw [if_pos (emptyCount_set b rc.1 rc.2 Player.Human (by decide) he)]

/-- An instance of C17: from the empty board, nine cells empty, ten levels suffice. -/
theorem minimax_total_witness :
    emptyCount Board.empty = 9 ∧ ∃ v, minimax 10 Board.empty false 0 = some (v, Board.empty) :=
  ⟨by decide, (minimax_total Board.empty false 0).2.2.2.1⟩


/-! ## Counting marks -/

theorem countP_mark_set_of_not_mem (b : Board) (rc : Fin 3 × Fin 3) (p q : Player)
    (l : List (Fin 3 × Fin 3)) (h : rc ∉ l) :
    l.countP (fun x => decide ((b.set rc.1 rc.2 p).get x.1 x.2 = q)) =
      l.countP (fun x => decide (b.get x.1 x.2 = q)) := by
  apply List.countP_congr
  intro x hx
  have hne : x ≠ rc := fun hh => h (hh ▸ hx)
  simp [get_set_pair, hne]

theorem countP_mark_set_same (b : Board) (rc : Fin 3 × Fin 3) (p : Player)
    (he : b.get rc.1 rc.2 ≠ p) (l : List (Fin 3 × Fin 3)) (hnd : l.Nodup) (h : rc ∈ l) :
    l.countP (fun x => decide ((b.set rc.1 rc.2 p).get x.1 x.2 = p)) =
      l.countP (fun x => decide (b.get x.1 x.2 = p)) + 1 := by
  induction l with
  | nil => simp at h
  | cons x l ih =>
    rw [List.nodup_cons] at hnd
    rw [List.countP_cons, List.countP_cons]
    by_cases hx : x = rc
    · subst hx
      rw [countP_mark_set_of_not_mem b x p p l hnd.1]
      simp [get_set_pair, he]
    · have hmem : rc ∈ l := by
        rcases List.mem_cons.mp h with h1 | h1
        · exact absurd h1.symm hx
        · exact h1
      have hx' : (b.set rc.1 rc.2 p).get x.1 x.2 = b.get x.1 x.2 := by
        rw [get_set_pair, if_neg hx]
      have := ih hnd.2 hmem
      rw [hx']
      omega

theorem countP_mark_set_other (b : Board) (rc : Fin 3 × Fin 3) (p q : Player)
    (hpq : p ≠ q) (he : b.get rc.1 rc.2 ≠ q) (l : List (Fin 3 × Fin 3)) :
    l.countP (fun x => decide ((b.set rc.1 rc.2 p).get x.1 x.2 = q)) =
      l.countP (fun x => decide (b.get x.1 x.2 = q)) := by
  apply List.countP_congr
  intro x _
  rw [get_set_pair]
  by_cases hx : x = rc
  · subst hx
    simp [hpq, he]
  · rw [if_neg hx]

theorem countMark_set_same (b : Board) (rc : Fin 3 × Fin 3) (p : Player)
    (he : b.get rc.1 rc.2 ≠ p) :
    countMark (b.set rc.1 rc.2 p) p = countMark b p + 1 :=
  countP_mark_set_same b rc p he allCells allCells_nodup (mem_allCells rc)

theorem countMark_set_other (b : Board) (rc : Fin 3 × Fin 3) (p q : Player)
    (hpq : p ≠ q) (he : b.get rc.1 rc.2 ≠ q) :
    countMark (b.set rc.1 rc.2 p) q = countMark b q :=
  countP_mark_set_other b rc p q hpq he allCells

theorem alternating_counts (b : Board) (m : Player) (h : Alternating b m) :
    (m = Player.Human ∧ countMark b Player.Human = countMark b Player.Computer) ∨
    (m = Player.Computer ∧ countMark b Player.Human = countMark b Player.Computer + 1) := by
  induction h with
  | start => exact Or.inl ⟨rfl, by decide⟩
  | @human b rc _ _ he ih =>
    rcases ih with ⟨_, ih⟩ | ⟨hm, _⟩
    · right
      refine ⟨rfl, ?_⟩
      rw [countMark_set_same b rc Player.Human (by rw [he]; decide),
        countMark_set_other b rc Player.Human Player.Computer (by decide) (by rw [he]; decide), ih]
    · cases hm
  | @computer b rc _ _ he ih =>
    rcases ih with ⟨hm, _⟩ | ⟨_, ih⟩
    · cases hm
    · left
      refine ⟨rfl, ?_⟩
      rw [countMark_set_same b rc Player.Computer (by rw [he]; decide),
        countMark_set_other b rc Player.Computer Player.Human (by decide) (by rw [he]; decide), ih]

theorem reached_alternating (b : Board) (cur : Player) (h : Reached b cur) :
    Alternating b cur := by
  induction h with
  | start => exact Alternating.start
  | @human b b' r c _ hw _ hturn ih =>
    obtain ⟨rc, _, _, he, rfl⟩ := human_turn_spec b b' r c hturn
    exact Alternating.human rc ih hw he
  | @computer b b' fuel _ hw hf hturn ih =>
    have hnf : ¬ b.is_full = true := by simp [hf]
    obtain ⟨rc0, he0⟩ := (not_full_iff b).mp hnf
    have hpos : 0 < emptyCount b := (emptyCount_pos_iff b).mpr ⟨rc0, he0⟩
    obtain ⟨rc, he, rfl, _, _⟩ := computer_turn_spec fuel b b' hpos hturn
    exact Alternating.computer rc ih hw he

/-- C16: on every board reached during a round as `play_one_round` runs it, the number of
human marks minus the number of computer marks is 0 or 1: 0 when the human is to move and
1 when the computer is to move. -/
theorem reached_mark_counts (b : Board) (cur : Player) (h : Reached b cur) :
    ((countMark b Player.Human : Int) - (countMark b Player.Computer : Int) = 0 ∨
      (countMark b Player.Human : Int) - (countMark b Player.Computer : Int) = 1) ∧
    (cur = Player.Human ∨ cur = Player.Computer) ∧
    (cur = Player.Human →
      (countMark b Player.Human : Int) - (countMark b Player.Computer : Int) = 0) ∧
    (cur = Player.Computer →
      (countMark b Player.Human : Int) - (countMark b Player.Computer : Int) = 1) := by
  rcases alternating_counts b cur (reached_alternating b cur h) with ⟨hm, hc⟩ | ⟨hm, hc⟩
  · subst hm
    refine ⟨Or.inl (by omega), Or.inl rfl, (fun _ => by omega), fun h => by cases h⟩
  · subst hm
    refine ⟨Or.inr (by omega), Or.inr rfl, (fun h => by cases h), fun _ => by omega⟩

/-- An instance of C16: at the end of the sample round the human would be to move, and
each player has three marks. -/
theorem reached_mark_counts_witness :
    (Reached (sampleBoard 6) Player.Human ∧
      countMark (sampleBoard 6) Player.Human = 3 ∧
      countMark (sampleBoard 6) Player.Computer = 3) ∧
    (countMark (sampleBoard 6) Player.Human : Int) -
      (countMark (sampleBoard 6) Player.Computer : Int) = 0 :=
  ⟨⟨sampleRound_reached, by decide, by decide⟩,
    (reached_mark_counts (sampleBoard 6) Player.Human sampleRound_reached).2.2.1 rfl⟩

/-! ## Complete lines on boards reached by alternating placements -/

theorem alternating_mover (b : Board) (m : Player) (h : Alternating b m) :
    m = Player.Human ∨ m = Player.Computer := by
  cases h with
  | start => exact Or.inl rfl
  | human => exact Or.inr rfl
  | computer => exact Or.inl rfl

theorem set_complete_mark (b : Board) (rc : Fin 3 × Fin 3) (p : Player)
    (hp : p ≠ Player.None) (hw : b.winner = none)
    (l : (Fin 3 × Fin 3) × (Fin 3 × Fin 3) × (Fin 3 × Fin 3)) (hl : l ∈ lines)
    (hc : lineComplete (b.set rc.1 rc.2 p) l = true) :
    (b.set rc.1 rc.2 p).get l.1.1 l.1.2 = p := by
  rw [lineComplete_set b rc p l hp ((winner_eq_none_iff b).mp hw l hl)] at hc
  simp only [Bool.and_eq_true, decide_eq_true_eq] at hc
  rw [get_set_pair]
  by_cases hx : l.1 = rc
  · rw [if_pos hx]
  · rw [if_neg hx]
    rcases hc.2.1 with h | h
    · exact absurd h hx
    · exact h

theorem alternating_same_mark (b : Board) (m : Player) (h : Alternating b m) :
    ∃ p, ∀ l ∈ lines, lineComplete b l = true → b.get l.1.1 l.1.2 = p := by
  cases h with
  | start =>
    refine ⟨Player.None, fun l hl hc => ?_⟩
    have := (winner_eq_none_iff Board.empty).mp (by decide) l hl
    rw [hc] at this
    cases this
  | @human b0 rc _ hw _ =>
    exact ⟨Player.Human, fun l hl hc => set_complete_mark b0 rc _ (by decide) hw l hl hc⟩
  | @computer b0 rc _ hw _ =>
    exact ⟨Player.Computer, fun l hl hc => set_complete_mark b0 rc _ (by decide) hw l hl hc⟩

theorem holdsLine_iff (b : Board) (p : Player) (hp : p ≠ Player.None) :
    holdsLine b p = true ↔
      ∃ l ∈ lines, lineComplete b l = true ∧ b.get l.1.1 l.1.2 = p := by
  unfold holdsLine lineComplete threeEqual
  simp only [List.any_eq_true, decide_eq_true_eq]
  constructor
  · rintro ⟨l, hl, h1, h2, h3⟩
    exact ⟨l, hl, ⟨by rw [h1]; exact hp, by rw [h1, h2], by rw [h1, h3]⟩, h1⟩
  · rintro ⟨l, hl, ⟨_, h2, h3⟩, h1⟩
    exact ⟨l, hl, h1, by rw [← h2, h1], by rw [← h3, h1]⟩

theorem alternating_oneSided (b : Board) (m : Player) (h : Alternating b m) :
    oneSided b = true := by
  obtain ⟨p, hp⟩ := alternating_same_mark b m h
  unfold oneSided
  cases hH : holdsLine b Player.Human with
  | false => rfl
  | true =>
    cases hC : holdsLine b Player.Computer with
    | false => rfl
    | true =>
      obtain ⟨l, hl, hc, hm⟩ := (holdsLine_iff b _ (by decide)).mp hH
      obtain ⟨l', hl', hc', hm'⟩ := (holdsLine_iff b _ (by decide)).mp hC
      have h1 := hp l hl hc
      have h2 := hp l' hl' hc'
      rw [hm] at h1
      rw [hm', ← h1] at h2
      cases h2

theorem minimaxWatched_eq (ok : Board → Bool) (keeps : Board → Player → Prop)
    (hok : ∀ b m, keeps b m → ok b = true)
    (hmover : ∀ b m, keeps b m → m = Player.Human ∨ m = Player.Computer)
    (hH : ∀ b (rc : Fin 3 × Fin 3), keeps b Player.Human → b.winner = none →
      b.get rc.1 rc.2 = Player.None → keeps (b.set rc.1 rc.2 Player.Human) Player.Computer)
    (hC : ∀ b (rc : Fin 3 × Fin 3), keeps b Player.Computer → b.winner = none →
      b.get rc.1 rc.2 = Player.None → keeps (b.set rc.1 rc.2 Player.Computer) Player.Human)
    (fuel : Nat) (b : Board) (m : Player) (d : Int) (h : keeps b m) :
    minimaxWatched ok fuel b (decide (m = Player.Computer)) d =
      minimax fuel b (decide (m = Player.Computer)) d := by
  induction fuel generalizing b m d with
  | zero => rfl
  | succ n ih =>
    rw [minimaxWatched, minimax, if_neg (by rw [hok b m h]; decide)]
    by_cases hdec : evaluate_board b = 10 ∨ evaluate_board b = -10
    · simp only [if_pos hdec]
    · simp only [if_neg hdec]
      have hw := (not_decisive_iff b).mp hdec
      by_cases hf : b.is_full = true
      · simp only [if_pos hf]
      · simp only [if_neg hf]
        rcases hmover b m h with rfl | rfl
        · simp only [show ¬ (Player.Human = Player.Computer) by decide, decide_False,
            Bool.false_eq_true, if_false]
          apply minimaxLoop_congr
          · intro b1 v b2 hh
            exact minimax_frame _ _ _ _ _ _ hh
          · intro rc he
            exact ih (b.set rc.1 rc.2 Player.Human) Player.Computer _ (hH b rc h hw he)
        · simp only [decide_True, if_true]
          apply minimaxLoop_congr
          · intro b1 v b2 hh
            exact minimax_frame _ _ _ _ _ _ hh
          · intro rc he
            exact ih (b.set rc.1 rc.2 Player.Computer) Player.Human _ (hC b rc h hw he)

theorem minimaxWatched_alternating (fuel : Nat) (b : Board) (m : Player) (d : Int)
    (h : Alternating b m) :
    minimaxWatched oneSided fuel b (decide (m = Player.Computer)) d =
      minimax fuel b (decide (m = Player.Computer)) d :=
  minimaxWatched_eq oneSided Alternating alternating_oneSided alternating_mover
    (fun _ rc h hw he => Alternating.human rc h hw he)
    (fun _ rc h hw he => Alternating.computer rc h hw he) fuel b m d h


/-! ## A round in which one mark completes two lines -/

theorem alternating_human_step (b b' : Board) (rc : Fin 3 × Fin 3)
    (h : Alternating b Player.Human) (hw : b.winner = none)
    (he : b.get rc.1 rc.2 = Player.None) (hb : b' = b.set rc.1 rc.2 Player.Human) :
    Alternating b' Player.Computer :=
  hb ▸ Alternating.human rc h hw he

theorem alternating_computer_step (b b' : Board) (rc : Fin 3 × Fin 3)
    (h : Alternating b Player.Computer) (hw : b.winner = none)
    (he : b.get rc.1 rc.2 = Player.None) (hb : b' = b.set rc.1 rc.2 Player.Computer) :
    Alternating b' Player.Human :=
  hb ▸ Alternating.computer rc h hw he

theorem doubleLine_alternating : Alternating doubleLineBoard Player.Computer := by
  have s0 : Alternating (boardOf (doubleLineRound.take 0)) Player.Human := Alternating.start
  have s1 : Alternating (boardOf (doubleLineRound.take 1)) Player.Computer :=
    alternating_human_step _ _ (0, 1) s0 (by decide) (by decide) (by decide)
  have s2 : Alternating (boardOf (doubleLineRound.take 2)) Player.Human :=
    alternating_computer_step _ _ (1, 1) s1 (by decide) (by decide) (by decide)
  have s3 : Alternating (boardOf (doubleLineRound.take 3)) Player.Computer :=
    alternating_human_step _ _ (0, 2) s2 (by decide) (by decide) (by decide)
  have s4 : Alternating (boardOf (doubleLineRound.take 4)) Player.Human :=
    alternating_computer_step _ _ (1, 2) s3 (by decide) (by decide) (by decide)
  have s5 : Alternating (boardOf (doubleLineRound.take 5)) Player.Computer :=
    alternating_human_step _ _ (1, 0) s4 (by decide) (by decide) (by decide)
  have s6 : Alternating (boardOf (doubleLineRound.take 6)) Player.Human :=
    alternating_computer_step _ _ (2, 1) s5 (by decide) (by decide) (by decide)
  have s7 : Alternating (boardOf (doubleLineRound.take 7)) Player.Computer :=
    alternating_human_step _ _ (2, 0) s6 (by decide) (by decide) (by decide)
  have s8 : Alternating (boardOf (doubleLineRound.take 8)) Player.Human :=
    alternating_computer_step _ _ (2, 2) s7 (by decide) (by decide) (by decide)
  exact alternating_human_step _ _ (0, 0) s8 (by decide) (by decide) (by decide)


/-! ## How many lines can be complete -/

theorem forMarks_spec (f : Player → Bool) (h : forMarks f = true) (p : Player) : f p = true := by
  unfold forMarks at h
  simp only [Bool.and_eq_true] at h
  cases p
  · exact h.1.1
  · exact h.1.2
  · exact h.2

theorem lineBound9_all :
    (forMarks fun a00 => forMarks fun a01 => forMarks fun a02 => forMarks fun a10 =>
      forMarks fun a11 => forMarks fun a12 => forMarks fun a20 => forMarks fun a21 =>
        forMarks fun a22 => lineBound9 a00 a01 a02 a10 a11 a12 a20 a21 a22) = true := by
  decide!

theorem lineBound9_holds (a00 a01 a02 a10 a11 a12 a20 a21 a22 : Player) :
    lineBound9 a00 a01 a02 a10 a11 a12 a20 a21 a22 = true :=
  forMarks_spec _ (forMarks_spec _ (forMarks_spec _ (forMarks_spec _ (forMarks_spec _
    (forMarks_spec _ (forMarks_spec _ (forMarks_spec _ (forMarks_spec _ lineBound9_all a00)
      a01) a02) a10) a11) a12) a20) a21) a22

theorem oneIf_decide (q : Prop) [Decidable q] : oneIf (decide q) = if q then 1 else 0 := by
  by_cases h : q <;> simp [h, oneIf]

theorem isHuman_eq (p : Player) : p.isHuman = decide (p = Player.Human) := by
  cases p <;> rfl

theorem countMark_eq_count9 (b : Board) (p : Player) :
    countMark b p =
      count9 (fun q => decide (q = p)) (b.get 0 0) (b.get 0 1) (b.get 0 2) (b.get 1 0)
        (b.get 1 1) (b.get 1 2) (b.get 2 0) (b.get 2 1) (b.get 2 2) := by
  unfold countMark count9 allCells
  simp only [List.countP_cons, List.countP_nil, oneIf_decide, decide_eq_true_eq]
  omega

theorem lineCount_eq_lineCount9 (b : Board) :
    (lines.filter (lineComplete b)).length =
      lineCount9 (b.get 0 0) (b.get 0 1) (b.get 0 2) (b.get 1 0) (b.get 1 1) (b.get 1 2)
        (b.get 2 0) (b.get 2 1) (b.get 2 2) := by
  rw [← List.countP_eq_length_filter]
  unfold lineCount9 lines
  simp only [List.countP_cons, List.countP_nil, lineComplete, sameMark_eq_threeEqual]
  have : ∀ c : Bool, oneIf c = if c = true then 1 else 0 := by
    intro c; cases c <;> rfl
  simp only [this]
  omega

theorem holdsLine_eq_hasLine9 (b : Board) (p : Player) :
    holdsLine b p =
      hasLine9 (fun q => decide (q = p)) (b.get 0 0) (b.get 0 1) (b.get 0 2) (b.get 1 0)
        (b.get 1 1) (b.get 1 2) (b.get 2 0) (b.get 2 1) (b.get 2 2) := by
  unfold holdsLine hasLine9 lines
  simp only [List.any_cons, List.any_nil, Bool.decide_and, Bool.or_false, Bool.or_assoc,
    Bool.and_assoc]

theorem lineBound_board (b : Board) :
    (countMark b Player.Human = countMark b Player.Computer ∨
      countMark b Player.Human = countMark b Player.Computer + 1) →
    oneSided b = true →
    (lines.filter (lineComplete b)).length ≤ 2 ∧
      ((lines.filter (lineComplete b)).length ≤ 1 ∨
        (emptyCount b = 0 ∧ holdsLine b Player.Human = true)) := by
  intro hcount hone
  have hb := lineBound9_holds (b.get 0 0) (b.get 0 1) (b.get 0 2) (b.get 1 0) (b.get 1 1)
    (b.get 1 2) (b.get 2 0) (b.get 2 1) (b.get 2 2)
  have e1 : Player.isHuman = fun q => decide (q = Player.Human) := funext isHuman_eq
  have e2 : Player.isComputer = fun q => decide (q = Player.Computer) := funext isComputer_eq
  have e3 : Player.isNone = fun q => decide (q = Player.None) := funext isNone_eq
  unfold lineBound9 at hb
  rw [e1, e2, e3] at hb
  simp only [← countMark_eq_count9, ← lineCount_eq_lineCount9, ← holdsLine_eq_hasLine9] at hb
  unfold oneSided at hone
  have hemp : emptyCount b = countMark b Player.None := rfl
  rw [hemp]
  simp only [Bool.or_eq_true, Bool.and_eq_true, Bool.not_eq_true', Nat.beq_eq, Nat.ble_eq,
    Bool.or_eq_false_iff] at hb hone
  rcases hb with (hb | hb) | hb
  · rcases hcount with hc | hc
    · exact absurd hc (Nat.ne_of_beq_eq_false hb.1)
    · exact absurd hc (Nat.ne_of_beq_eq_false hb.2)
  · rw [hb.1, hb.2] at hone
    simp at hone
  · exact hb

theorem is_full_of_emptyCount (b : Board) (h : emptyCount b = 0) : b.is_full = true := by
  by_contra hf
  obtain ⟨rc, he⟩ := (not_full_iff b).mp hf
  have := (emptyCount_pos_iff b).mpr ⟨rc, he⟩
  omega

theorem winner_of_holdsLine (b : Board) (p q : Player) (hq : q ≠ Player.None)
    (hp : ∀ l ∈ lines, lineComplete b l = true → b.get l.1.1 l.1.2 = p)
    (hh : holdsLine b q = true) : b.winner = some q := by
  obtain ⟨l, hl, hc, hm⟩ := (holdsLine_iff b q hq).mp hh
  have hpq : p = q := by rw [← hp l hl hc, hm]
  cases hw : b.winner with
  | none =>
    have := (winner_eq_none_iff b).mp hw l hl
    rw [hc] at this
    cases this
  | some w =>
    obtain ⟨hne, l', hl', h1, h2, h3⟩ := winner_some_line b w hw
    have hc' : lineComplete b l' = true := by
      simp only [lineComplete, threeEqual, decide_eq_true_eq]
      exact ⟨by rw [h1]; exact hne, by rw [h1, h2], by rw [h1, h3]⟩
    rw [← h1, hp l' hl' hc', hpq]

theorem alternating_lines (b : Board) (m : Player) (h : Alternating b m) :
    (lines.filter (lineComplete b)).length ≤ 2 ∧
    (∃ p, ∀ l ∈ lines, lineComplete b l = true → b.get l.1.1 l.1.2 = p) ∧
    ((lines.filter (lineComplete b)).length = 2 →
      b.is_full = true ∧ holdsLine b Player.Human = true ∧
        b.winner = some Player.Human) := by
  have hcount : countMark b Player.Human = countMark b Player.Computer ∨
      countMark b Player.Human = countMark b Player.Computer + 1 := by
    rcases alternating_counts b m h with ⟨_, hc⟩ | ⟨_, hc⟩
    · exact Or.inl hc
    · exact Or.inr hc
  obtain ⟨h2, h3⟩ := lineBound_board b hcount (alternating_oneSided b m h)
  obtain ⟨p, hp⟩ := alternating_same_mark b m h
  refine ⟨h2, ⟨p, hp⟩, ?_⟩
  intro htwo
  rcases h3 with h3 | ⟨h3, h4⟩
  · omega
  · exact ⟨is_full_of_emptyCount b h3, h4, winner_of_holdsLine b p _ (by decide) hp h4⟩

/-- The board that refutes C18 as stated: it is reached by alternating placements, none on
a board with a winner, and two of its lines are complete, row 0 and column 0. -/
theorem two_lines_complete :
    Alternating doubleLineBoard Player.Computer ∧
    (lines.filter (lineComplete doubleLineBoard)).length = 2 ∧
    ¬ (lines.filter (lineComplete doubleLineBoard)).length ≤ 1 :=
  ⟨doubleLine_alternating, by decide, by decide⟩

/-- C18, amended: on every board reached from the empty board by alternating placements,
the human first, none on a board that has a winner, at most two of the eight lines are
complete and all complete lines hold the same mark; two lines are complete only on a full
board, and they are the human's. -/
theorem alternating_line_count (b : Board) (m : Player) (h : Alternating b m) :
    (lines.filter (lineComplete b)).length ≤ 2 ∧
    (∃ p, ∀ l ∈ lines, lineComplete b l = true → b.get l.1.1 l.1.2 = p) ∧
    ((lines.filter (lineComplete b)).length = 2 →
      b.is_full = true ∧ holdsLine b Player.Human = true ∧
        b.winner = some Player.Human) :=
  alternating_lines b m h

/-- An instance of the amended C18, at the end of the round in which the human's fifth
mark completes two lines. -/
theorem alternating_line_count_witness :
    Alternating doubleLineBoard Player.Computer ∧
    (lines.filter (lineComplete doubleLineBoard)).length ≤ 2 ∧
    doubleLineBoard.is_full = true ∧ doubleLineBoard.winner = some Player.Human := by
  obtain ⟨h1, _, h3⟩ :=
    alternating_line_count doubleLineBoard Player.Computer doubleLine_alternating
  obtain ⟨h4, _, h5⟩ := h3 (by decide)
  exact ⟨doubleLine_alternating, h1, h4, h5⟩


/-! ## The boards the searches run on -/

end TicTacToe
